import Mathlib

/-!
# Verification of the lex-table builder (`build_lex_table.cc`)

A shallow embedding of the lexical-table builder of the tree-sitter
compiler.  The orchestrator (`build_lex_table.cc`) is translated directly
from the source; the external collaborators that the source file only
calls (rule-tree queries, item-set transitions, the conflict manager, the
lex-table container) are modelled from the specification, each marked
`Modelled from the spec:` in its doc comment.

Machine integers in the source are plain `int` indices and precedences;
they are modelled as `Int`/`Nat` (no overflow is relevant here).
-/

namespace TreeSitter

/-- Metadata properties attached to a rule subtree.  The builder uses
exactly the keys `START_TOKEN` and `PRECEDENCE`, so the key/value map is
modelled as two optional fields. -/
structure MetaParams where
  start_token : Option Int := none
  prec : Option Int := none
deriving DecidableEq, Repr, Inhabited

/-- Modelled from the spec: the immutable rule tree, with variants
character-set literal, sequence, choice (ordered alternatives, stored as
a right-nested spine of binary choices), repetition, metadata-annotated
subtree, and the blank rule. -/
inductive Rule : Type
  | blank
  | charSet (chars : List Nat)
  | seq (left right : Rule)
  | choice (first second : Rule)
  | rep (content : Rule)
  | metadata (content : Rule) (params : MetaParams)
deriving DecidableEq, Repr, Inhabited

/-- The ordered alternatives of a rule: the leaves of its top-level
choice spine (a non-choice rule is a single alternative). -/
def Rule.alternatives : Rule → List Rule
  | .choice a b => a.alternatives ++ b.alternatives
  | r => [r]

/-- Modelled from the spec: a grammar symbol is a token, a nonterminal,
the end-of-input marker or the error marker. -/
inductive Symbol : Type
  | error
  | endOfInput
  | terminal (index : Nat)
  | nonterminal (index : Nat)
deriving DecidableEq, Repr

/-- `Symbol::is_token` of the source: true exactly for lexical tokens. -/
def Symbol.is_token : Symbol → Bool
  | .terminal _ => true
  | _ => false

/-- A `[min, max]` interval of precedence values, with an `isSet` flag
distinguishing the empty interval (as in the compiler's
`PrecedenceRange`). -/
structure PrecedenceRange where
  isSet : Bool := false
  min : Int := 0
  max : Int := 0
deriving DecidableEq, Repr, Inhabited

/-- Extend a precedence range by one value. -/
def PrecedenceRange.add (r : PrecedenceRange) (v : Int) : PrecedenceRange :=
  if r.isSet then { isSet := true, min := Min.min r.min v, max := Max.max r.max v }
  else { isSet := true, min := v, max := v }

/-- Union of two precedence ranges. -/
def range_union (a b : PrecedenceRange) : PrecedenceRange :=
  if a.isSet then (if b.isSet then (a.add b.min).add b.max else a) else b

/-- Completion status of a rule residual: is the token fully matched here,
and at which precedence. -/
structure CompletionStatus where
  is_done : Bool
  precedence : Int
deriving DecidableEq, Repr

/-- Modelled from the spec: `get_completion_status` — whether a rule
residual denotes "fully matched right now" and at what precedence
(a `PRECEDENCE` metadata annotation overrides the inner precedence; a
choice is done as soon as one alternative is, at the best such
precedence). -/
def get_completion_status : Rule → CompletionStatus
  | .blank => ⟨true, 0⟩
  | .charSet _ => ⟨false, 0⟩
  | .seq l r =>
      let a := get_completion_status l
      let b := get_completion_status r
      ⟨a.is_done && b.is_done, Max.max a.precedence b.precedence⟩
  | .choice l r =>
      let a := get_completion_status l
      let b := get_completion_status r
      if a.is_done then
        (if b.is_done then ⟨true, Max.max a.precedence b.precedence⟩ else a)
      else b
  | .rep _ => ⟨true, 0⟩
  | .metadata r params =>
      let a := get_completion_status r
      match params.prec with
      | some p => ⟨a.is_done, p⟩
      | none => a

/-- Selector for the two metadata keys. -/
inductive MetaKeySel : Type
  | startToken
  | precedence
deriving DecidableEq, Repr

/-- Look up one metadata key in the params. -/
def MetaParams.get (params : MetaParams) : MetaKeySel → Option Int
  | .startToken => params.start_token
  | .precedence => params.prec

/-- Modelled from the spec: `get_metadata` — the range of values carried
by metadata annotations for a given key anywhere in a rule subtree. -/
def get_metadata (k : MetaKeySel) : Rule → PrecedenceRange
  | .blank => {}
  | .charSet _ => {}
  | .seq l r => range_union (get_metadata k l) (get_metadata k r)
  | .choice l r => range_union (get_metadata k l) (get_metadata k r)
  | .rep r => get_metadata k r
  | .metadata r params =>
      let inner := get_metadata k r
      match params.get k with
      | some v => inner.add v
      | none => inner

/-- Smart sequence used by the derivative: drops fully consumed (blank)
components so that residuals stay canonical. -/
def seqS (l r : Rule) : Rule :=
  if l = Rule.blank then r else if r = Rule.blank then l else Rule.seq l r

/-- Merge two optional derivative residuals into one (a choice when both
exist and differ). -/
def mergeOpt : Option Rule → Option Rule → Option Rule
  | none, b => b
  | some a, none => some a
  | some a, some b => some (if a = b then a else Rule.choice a b)

/-- Modelled from the spec: the derivative of a rule by one input
character — `none` when the character cannot be consumed, otherwise the
residual rule that remains to be matched. -/
def derivative (c : Nat) : Rule → Option Rule
  | .blank => none
  | .charSet cs => if c ∈ cs then some .blank else none
  | .seq l r =>
      let dl := (derivative c l).map (fun l' => seqS l' r)
      if (get_completion_status l).is_done then mergeOpt dl (derivative c r) else dl
  | .choice l r => mergeOpt (derivative c l) (derivative c r)
  | .rep r => (derivative c r).map (fun r' => seqS r' (.rep r))
  | .metadata r params => (derivative c r).map (fun r' => .metadata r' params)

/-- All characters mentioned by character sets inside a rule; a superset
of the characters on which the rule can advance. -/
def Rule.chars : Rule → List Nat
  | .blank => []
  | .charSet cs => cs
  | .seq l r => l.chars ++ r.chars
  | .choice l r => l.chars ++ r.chars
  | .rep r => r.chars
  | .metadata r _ => r.chars

/-- A lex item: the token symbol being matched together with the residual
rule that remains to match (`lex_item.h`, modelled from the spec). -/
structure LexItem where
  lhs : Symbol
  rule : Rule
deriving DecidableEq, Repr

/-- Modelled from the spec: an item is at a token-start position when its
residual still carries an active `START_TOKEN` marker. -/
def LexItem.is_token_start (it : LexItem) : Bool :=
  (get_metadata MetaKeySel.startToken it.rule).max > 0

/-- A lex item set: an unordered, deduplicated collection of lex items
(modelled as a duplicate-free list in insertion order). -/
structure LexItemSet where
  entries : List LexItem := []
deriving DecidableEq, Repr, Inhabited

/-- Deduplicating insertion into an item set. -/
def LexItemSet.insert (s : LexItemSet) (it : LexItem) : LexItemSet :=
  if it ∈ s.entries then s else ⟨s.entries ++ [it]⟩

/-- Structural set equality of item sets (the identity used by the
builder's interning map, `LexItemSet::operator==`). -/
def itemSetEq (a b : LexItemSet) : Bool :=
  a.entries.all (fun x => decide (x ∈ b.entries)) &&
    b.entries.all (fun x => decide (x ∈ a.entries))

/-- A character set used as a transition label: a list of characters. -/
abbrev CharacterSet := List Nat

/-- The item set reached from `s` by consuming one character `c`. -/
def LexItemSet.succOn (s : LexItemSet) (c : Nat) : LexItemSet :=
  s.entries.foldl
    (fun acc it =>
      match derivative c it.rule with
      | some r' => acc.insert ⟨it.lhs, r'⟩
      | none => acc)
    ⟨[]⟩

/-- Insert one character into the transition group with the matching
successor item set, or start a new group. -/
def addTransition (ts : List (CharacterSet × LexItemSet)) (c : Nat)
    (succ : LexItemSet) : List (CharacterSet × LexItemSet) :=
  match ts with
  | [] => [([c], succ)]
  | (cs, s) :: rest =>
      if itemSetEq s succ then (cs ++ [c], s) :: rest
      else (cs, s) :: addTransition rest c succ

/-- Modelled from the spec: `LexItemSet::transitions` — partition the
relevant characters into disjoint ranges, each mapped to the successor
item set obtained by taking every item's derivative. -/
def LexItemSet.transitions (s : LexItemSet) : List (CharacterSet × LexItemSet) :=
  ((s.entries.foldl (fun acc it => acc ++ it.rule.chars) []).dedup).foldl
    (fun ts c =>
      let succ := s.succOn c
      if succ.entries = [] then ts else addTransition ts c succ)
    []

/-- A lex action: advance to another state (with the precedence range
reachable there), accept a token at a precedence, or the error action. -/
inductive LexAction : Type
  | error
  | accept (sym : Symbol) (precedence : Int)
  | advance (state_id : Int) (pr : PrecedenceRange)
deriving DecidableEq, Repr, Inhabited

/-- `LexAction::Accept`. -/
def LexAction.Accept (sym : Symbol) (precedence : Int) : LexAction :=
  .accept sym precedence

/-- `LexAction::Advance`. -/
def LexAction.Advance (state_id : Int) (pr : PrecedenceRange) : LexAction :=
  .advance state_id pr

/-- Declaration order of symbols, used for the conflict manager's
stable tie-break (tokens compare by grammar index). -/
def Symbol.rank : Symbol → Int
  | .error => -2
  | .endOfInput => -1
  | .terminal i => i
  | .nonterminal i => i

/-- Modelled from the spec: `LexConflictManager::resolve new old` — true
iff the new action wins over the currently stored one.  An accept at
higher precedence beats a lower one; at equal precedence the earlier
declared token wins; an advance beats an accept only if its reachable
precedence maximum strictly exceeds the accept's precedence; everything
beats the error action. -/
def resolve (newAction oldAction : LexAction) : Bool :=
  match oldAction, newAction with
  | .error, _ => true
  | _, .error => false
  | .accept s p, .accept s' p' =>
      if p' > p then true
      else if p' < p then false
      else decide (s'.rank < s.rank)
  | .accept _ p, .advance _ pr => pr.isSet && decide (pr.max > p)
  | .advance _ pr, .accept _ p' => !pr.isSet || decide (p' ≥ pr.max)
  | .advance _ _, .advance _ _ => false

/-- One interned lex state: default action, explicit actions per
character range, and the token-start flag. -/
structure LexState where
  default_action : LexAction := .error
  actions : List (CharacterSet × LexAction) := []
  is_token_start : Bool := false
deriving DecidableEq, Repr, Inhabited

/-- The lex table: the appended states plus the reserved error state. -/
structure LexTable where
  states : List LexState := []
  error_state : LexState := {}
deriving DecidableEq, Repr, Inhabited

/-- `LexTable::ERROR_STATE_ID`: the reserved id of the error state,
distinct from every appended state id. -/
def LexTable.ERROR_STATE_ID : Int := -1

/-- `LexTable::add_state`: append a fresh empty state, returning its id. -/
def LexTable.add_state (t : LexTable) : Int × LexTable :=
  ((t.states.length : Int), { t with states := t.states ++ [{}] })

/-- `LexTable::state`: the state stored under an id. -/
def LexTable.state (t : LexTable) (id : Int) : LexState :=
  if id = LexTable.ERROR_STATE_ID then t.error_state
  else t.states.getD id.toNat default

/-- Replace the state stored under an id. -/
def LexTable.setState (t : LexTable) (id : Int) (s : LexState) : LexTable :=
  if id = LexTable.ERROR_STATE_ID then { t with error_state := s }
  else { t with states := t.states.set id.toNat s }

/-- Update the state stored under an id. -/
def LexTable.updateState (t : LexTable) (id : Int) (f : LexState → LexState) :
    LexTable :=
  t.setState id (f (t.state id))

/-- Set a character range's action in an action map (ordered-map
assignment `actions[rule] = action`). -/
def assocSet (m : List (CharacterSet × LexAction)) (k : CharacterSet)
    (v : LexAction) : List (CharacterSet × LexAction) :=
  match m with
  | [] => [(k, v)]
  | (k', v') :: rest =>
      if k' = k then (k, v) :: rest else (k', v') :: assocSet rest k v

/-- A lexical grammar variable (only its rule is consumed here). -/
structure LexVariable where
  rule : Rule
deriving DecidableEq, Repr, Inhabited

/-- The lexical grammar: token rule trees and separator rule trees. -/
structure LexicalGrammar where
  vars : List LexVariable := []
  separators : List Rule := []
deriving DecidableEq, Repr, Inhabited

/-- A parser state: its expected-input symbols (read-only here) and the
lex state id assigned by this builder. -/
structure ParseState where
  expected_inputs : List Symbol := []
  lex_state_id : Int := 0
deriving DecidableEq, Repr, Inhabited

/-- The parser-state table: the states and the set of all grammar
symbols (used for the error state). -/
structure ParseTable where
  states : List ParseState := []
  symbols : List Symbol := []
deriving DecidableEq, Repr, Inhabited

/-- The mutable state of `LexTableBuilder`: the interning map
`lex_state_ids` and the lex table under construction. -/
structure Builder where
  lex_state_ids : List (LexItemSet × Int) := []
  lex_table : LexTable := {}
deriving DecidableEq, Repr, Inhabited

/-- The separator alternatives computed in the `LexTableBuilder`
constructor: every grammar separator wrapped in `Repeat`, plus `Blank`. -/
def separator_rules (g : LexicalGrammar) : List Rule :=
  g.separators.map Rule.rep ++ [Rule.blank]

/-- The token alternatives contributed by one symbol in
`build_lex_item_set`: nothing for the error marker, the sentinel-0
character set for end-of-input, the rule's alternatives for a token,
nothing for a nonterminal. -/
def symbol_alternatives (g : LexicalGrammar) (s : Symbol) : List Rule :=
  match s with
  | .error => []
  | .endOfInput => [Rule.charSet [0]]
  | .terminal i =>
      let rule := (g.vars.getD i default).rule
      match rule with
      | .choice a b => (Rule.choice a b).alternatives
      | r => [r]
  | .nonterminal _ => []

/-- The item synthesized for one (symbol, alternative, separator)
triple: the separator, annotated `{START_TOKEN = 1, PRECEDENCE = -1}`,
followed in sequence by the alternative. -/
def sep_item (s : Symbol) (sep alt : Rule) : LexItem :=
  ⟨s, Rule.seq (Rule.metadata sep { start_token := some 1, prec := some (-1) }) alt⟩

/-- `LexTableBuilder::build_lex_item_set`, translated from the source. -/
def build_lex_item_set (g : LexicalGrammar) (symbols : List Symbol) :
    LexItemSet :=
  symbols.foldl
    (fun acc s =>
      (symbol_alternatives g s).foldl
        (fun acc alt =>
          (separator_rules g).foldl
            (fun acc sep => acc.insert (sep_item s sep alt)) acc)
        acc)
    ⟨[]⟩

/-- `LexTableBuilder::precedence_range_for_item_set`, translated from
the source. -/
def precedence_range_for_item_set (s : LexItemSet) : PrecedenceRange :=
  s.entries.foldl
    (fun res it =>
      let pr := get_metadata MetaKeySel.precedence it.rule
      (res.add pr.min).add pr.max)
    {}

/-- One iteration of the `add_accept_token_actions` loop: if the item's
rule is complete, fold the accept action into the state's default action
through the conflict manager. -/
def accept_step (state_id : Int) (b : Builder) (it : LexItem) : Builder :=
  let status := get_completion_status it.rule
  if status.is_done then
    let current_action := (b.lex_table.state state_id).default_action
    let new_action := LexAction.Accept it.lhs status.precedence
    if resolve new_action current_action then
      let t := b.lex_table.updateState state_id
        (fun st => { st with default_action := new_action })
      { b with lex_table := t }
    else b
  else b

/-- `LexTableBuilder::add_accept_token_actions`, translated from the
source: fold every completed item's accept action into the state's
default action through the conflict manager. -/
def add_accept_token_actions (item_set : LexItemSet) (state_id : Int)
    (b : Builder) : Builder :=
  item_set.entries.foldl (accept_step state_id) b

/-- One iteration of the `add_token_start` loop. -/
def token_start_step (state_id : Int) (b : Builder) (it : LexItem) : Builder :=
  if it.is_token_start then
    let t := b.lex_table.updateState state_id
      (fun st => { st with is_token_start := true })
    { b with lex_table := t }
  else b

/-- `LexTableBuilder::add_token_start`, translated from the source. -/
def add_token_start (item_set : LexItemSet) (state_id : Int) (b : Builder) :
    Builder :=
  item_set.entries.foldl (token_start_step state_id) b

mutual
/-- `LexTableBuilder::add_lex_state`, translated from the source, with a
fuel parameter standing in for the C++ call stack: look the item set up
in the interning map; if absent, allocate a state id, record the mapping
before recursing, then populate the state. -/
def add_lex_state (fuel : Nat) (item_set : LexItemSet) (b : Builder) :
    Option (Int × Builder) :=
  match fuel with
  | 0 => none
  | f + 1 =>
      match b.lex_state_ids.find? (fun p => itemSetEq p.1 item_set) with
      | some p => some (p.2, b)
      | none =>
          let (state_id, t) := b.lex_table.add_state
          let b1 : Builder :=
            { lex_state_ids := b.lex_state_ids ++ [(item_set, state_id)],
              lex_table := t }
          (populate_lex_state f item_set state_id b1).map
            (fun b2 => (state_id, b2))

/-- `LexTableBuilder::populate_lex_state`, translated from the source:
the accept pass, then the advance pass, then the token-start pass. -/
def populate_lex_state (fuel : Nat) (item_set : LexItemSet) (state_id : Int)
    (b : Builder) : Option Builder :=
  match fuel with
  | 0 => none
  | f + 1 =>
      let b1 := add_accept_token_actions item_set state_id b
      (add_advance_actions f item_set.transitions state_id b1).map
        (fun b2 => add_token_start item_set state_id b2)

/-- `LexTableBuilder::add_advance_actions`, translated from the source
(the transition list is precomputed by the caller): for every derived
transition, intern the successor, build the advance action carrying the
successor's precedence range, and store it at the transition's character
range iff the conflict manager reports it wins over the state's current
default action. -/
def add_advance_actions (fuel : Nat) (ts : List (CharacterSet × LexItemSet))
    (state_id : Int) (b : Builder) : Option Builder :=
  match fuel with
  | 0 => none
  | f + 1 =>
      match ts with
      | [] => some b
      | (rule, new_item_set) :: rest =>
          match add_lex_state f new_item_set b with
          | none => none
          | some (new_state_id, b1) =>
              let action := LexAction.Advance new_state_id
                (precedence_range_for_item_set new_item_set)
              let b2 :=
                if resolve action ((b1.lex_table.state state_id).default_action)
                then
                  let t := b1.lex_table.updateState state_id
                    (fun st => { st with actions := assocSet st.actions rule action })
                  { b1 with lex_table := t }
                else b1
              add_advance_actions f rest state_id b2
end

/-- The action currently occupying one character range of an action map
(the error action when the range is unoccupied). -/
def assocGetD (m : List (CharacterSet × LexAction)) (k : CharacterSet) :
    LexAction :=
  ((m.find? (fun p => p.1 = k)).map Prod.snd).getD .error

/-- The advance pass as the claim describes it (for comparison with the
source): fold each Advance against whatever action already occupies that
exact character range of the state's action map, rather than against the
state's default action. -/
def add_advance_actions_claim (fuel : Nat)
    (ts : List (CharacterSet × LexItemSet)) (state_id : Int) (b : Builder) :
    Option Builder :=
  match fuel with
  | 0 => none
  | f + 1 =>
      match ts with
      | [] => some b
      | (rule, new_item_set) :: rest =>
          match add_lex_state f new_item_set b with
          | none => none
          | some (new_state_id, b1) =>
              let action := LexAction.Advance new_state_id
                (precedence_range_for_item_set new_item_set)
              let occupant := assocGetD ((b1.lex_table.state state_id).actions) rule
              let b2 :=
                if resolve action occupant
                then
                  let t := b1.lex_table.updateState state_id
                    (fun st => { st with actions := assocSet st.actions rule action })
                  { b1 with lex_table := t }
                else b1
              add_advance_actions_claim f rest state_id b2

/-- State population as the claim describes it: the advance pass folds
against the occupant of the character range. -/
def populate_lex_state_claim (fuel : Nat) (item_set : LexItemSet)
    (state_id : Int) (b : Builder) : Option Builder :=
  match fuel with
  | 0 => none
  | f + 1 =>
      let b1 := add_accept_token_actions item_set state_id b
      (add_advance_actions_claim f item_set.transitions state_id b1).map
        (fun b2 => add_token_start item_set state_id b2)

/-- State population with the advance pass run before the accept pass
(one of the reorderings the independence claim quantifies over). -/
def populate_lex_state_advance_first (fuel : Nat) (item_set : LexItemSet)
    (state_id : Int) (b : Builder) : Option Builder :=
  match fuel with
  | 0 => none
  | f + 1 =>
      (add_advance_actions f item_set.transitions state_id b).map
        (fun b1 => add_token_start item_set state_id
          (add_accept_token_actions item_set state_id b1))

/-- State population with the token-start pass run first. -/
def populate_lex_state_token_start_first (fuel : Nat) (item_set : LexItemSet)
    (state_id : Int) (b : Builder) : Option Builder :=
  match fuel with
  | 0 => none
  | f + 1 =>
      let b0 := add_token_start item_set state_id b
      let b1 := add_accept_token_actions item_set state_id b0
      add_advance_actions f item_set.transitions state_id b1

/-- The per-parse-state loop of `LexTableBuilder::build`: build each
parse state's item set from its expected inputs and assign the interned
lex state id. -/
def build_parse_states (fuel : Nat) (g : LexicalGrammar) :
    List ParseState → Builder → Option (List ParseState × Builder)
  | [], b => some ([], b)
  | p :: ps, b =>
      let item_set := build_lex_item_set g p.expected_inputs
      match add_lex_state fuel item_set b with
      | none => none
      | some (state_id, b1) =>
          (build_parse_states fuel g ps b1).map
            (fun r => ({ p with lex_state_id := state_id } :: r.1, r.2))

/-- `build_lex_table` (via `LexTableBuilder::build`), translated from the
source: assign every parse state its lex state id, then build and
populate the error state directly at `ERROR_STATE_ID` (never interned). -/
def build_lex_table (fuel : Nat) (pt : ParseTable) (g : LexicalGrammar) :
    Option (LexTable × ParseTable) :=
  match build_parse_states fuel g pt.states {} with
  | none => none
  | some (states', b) =>
      let error_item_set := build_lex_item_set g pt.symbols
      (populate_lex_state fuel error_item_set LexTable.ERROR_STATE_ID b).map
        (fun b2 => (b2.lex_table, { pt with states := states' }))

/-- Number of interned states in the builder's table. -/
def Builder.len (b : Builder) : Nat := b.lex_table.states.length

/-- A state id the builder may legitimately populate: the reserved error
id, or the id of an already-allocated state. -/
def SidOk (b : Builder) (sid : Int) : Prop :=
  sid = LexTable.ERROR_STATE_ID ∨ (0 ≤ sid ∧ sid.toNat < b.len)

/-- Overwrite the token-start flag of one state. -/
def flagSet (sid : Int) (v : Bool) (b : Builder) : Builder :=
  let t := b.lex_table.updateState sid (fun st => { st with is_token_start := v })
  { b with lex_table := t }

/-- The builder invariant: every interned id is non-negative, and no two
interning-map keys are the same item set. -/
def Inv (b : Builder) : Prop :=
  (∀ p ∈ b.lex_state_ids, 0 ≤ p.2) ∧
    b.lex_state_ids.Pairwise (fun p q => itemSetEq p.1 q.1 = false)

/-- What `add_lex_state` may do to the builder: extend the interning map,
append states, and leave every pre-existing state (and the error state)
untouched. -/
def FramedAdd (b b' : Builder) : Prop :=
  (∀ p ∈ b.lex_state_ids, p ∈ b'.lex_state_ids) ∧
  b.len ≤ b'.len ∧
  b'.lex_table.error_state = b.lex_table.error_state ∧
  (∀ n : Nat, n < b.len →
    b'.lex_table.states.getD n default = b.lex_table.states.getD n default)

/-- What populating state `sid` may do to the builder: everything
`add_lex_state` may do, plus mutating state `sid` itself. -/
def FramedAt (sid : Int) (b b' : Builder) : Prop :=
  (∀ p ∈ b.lex_state_ids, p ∈ b'.lex_state_ids) ∧
  b.len ≤ b'.len ∧
  (sid ≠ LexTable.ERROR_STATE_ID →
    b'.lex_table.error_state = b.lex_table.error_state) ∧
  (∀ n : Nat, n < b.len → (n : Int) ≠ sid →
    b'.lex_table.states.getD n default = b.lex_table.states.getD n default)

/-- Two tables that agree everywhere except possibly at one state id:
same number of states, same error state (when the id is not the error
id), and the same state under every other id. -/
def OnlyAt (sid : Int) (t t' : LexTable) : Prop :=
  t'.states.length = t.states.length ∧
  (sid ≠ LexTable.ERROR_STATE_ID → t'.error_state = t.error_state) ∧
  (∀ n : Nat, (n : Int) ≠ sid →
    t'.states.getD n default = t.states.getD n default)

/-- A table cell evolved only through winning conflict-manager queries:
each rewrite `a → a'` had `resolve a' a = true`. -/
def WinChain (a a' : LexAction) : Prop :=
  Relation.ReflTransGen (fun x y => resolve y x = true) a a'

/-- Concrete item set exercising the interaction of the accept and
advance passes: token 0 is already complete, token 1 still needs a `b`
(character 98). -/
def cexItemSet : LexItemSet :=
  ⟨[⟨Symbol.terminal 0, Rule.blank⟩, ⟨Symbol.terminal 1, Rule.charSet [98]⟩]⟩

/-- A builder holding one allocated, still-unpopulated state. -/
def cexBuilder : Builder :=
  { lex_state_ids := [(cexItemSet, 0)], lex_table := { states := [{}] } }

/-- Grammar with the cyclic token `repeat('a')`. -/
def cyclicGrammar : LexicalGrammar :=
  { vars := [⟨Rule.rep (Rule.charSet [97])⟩], separators := [] }

/-- Parse table for `cyclicGrammar`: one state expecting the token. -/
def cyclicParseTable : ParseTable :=
  { states := [{ expected_inputs := [Symbol.terminal 0] }],
    symbols := [Symbol.terminal 0] }

/-- Grammar with tokens `'a'` and `"ab"` and no separators. -/
def twoTokenGrammar : LexicalGrammar :=
  { vars := [⟨Rule.charSet [97]⟩,
             ⟨Rule.seq (Rule.charSet [97]) (Rule.charSet [98])⟩],
    separators := [] }

/-- Parse table for `twoTokenGrammar`: one state expecting both tokens. -/
def twoTokenParseTable : ParseTable :=
  { states := [{ expected_inputs := [Symbol.terminal 0, Symbol.terminal 1] }],
    symbols := [Symbol.error, Symbol.endOfInput,
                Symbol.terminal 0, Symbol.terminal 1] }

/-- Grammar with the single token `'a'`. -/
def oneTokenGrammar : LexicalGrammar :=
  { vars := [⟨Rule.charSet [97]⟩], separators := [] }

/-- Parse table whose only parse state expects exactly the full symbol
set, so its item set coincides with the error state's item set. -/
def fullSetParseTable : ParseTable :=
  { states := [{ expected_inputs := [Symbol.terminal 0] }],
    symbols := [Symbol.terminal 0] }

/-- The residual item set reached from `cyclicGrammar`'s start set after
one `'a'`: its only transition leads back to itself. -/
def cyclicResidualSet : LexItemSet :=
  ⟨[⟨Symbol.terminal 0, Rule.rep (Rule.charSet [97])⟩]⟩

/-- Concrete item set with no completed item and one transition (on
character 98). -/
def pendingItemSet : LexItemSet :=
  ⟨[⟨Symbol.terminal 1, Rule.charSet [98]⟩]⟩

/-- The builder produced by populating `pendingItemSet` at state 0 of
`cexBuilder`. -/
def pendingResult : Builder :=
  (populate_lex_state 10 pendingItemSet 0 cexBuilder).getD default

/-- The builder produced by populating `cexItemSet` at state 0 of
`cexBuilder`. -/
def cexResult : Builder :=
  (populate_lex_state 10 cexItemSet 0 cexBuilder).getD default

/-- The builder produced by interning the item set of `oneTokenGrammar`'s
only token into an empty builder. -/
def internResult : Builder :=
  ((add_lex_state 10 (build_lex_item_set oneTokenGrammar [Symbol.terminal 0])
    { }).getD default).2

/-- The table/parse-table pair built for `twoTokenGrammar`. -/
def twoTokenResult : LexTable × ParseTable :=
  (build_lex_table 20 twoTokenParseTable twoTokenGrammar).getD default

theorem mem_insert_iff (s : LexItemSet) (it x : LexItem) :
    x ∈ (s.insert it).entries ↔ x ∈ s.entries ∨ x = it := by
  unfold LexItemSet.insert
  by_cases h : it ∈ s.entries
  · simp only [if_pos h]
    constructor
    · exact Or.inl
    · rintro (hx | rfl)
      · exact hx
      · exact h
  · simp [if_neg h]

theorem nodup_insert (s : LexItemSet) (it : LexItem)
    (h : s.entries.Nodup) : (s.insert it).entries.Nodup := by
  unfold LexItemSet.insert
  by_cases hm : it ∈ s.entries
  · simpa [if_pos hm]
  · simp only [if_neg hm, List.nodup_append]
    exact ⟨h, by simpa using hm⟩

theorem mem_foldl_insert {β : Type} (f : LexItemSet → β → LexItemSet)
    (Q : β → LexItem → Prop)
    (hf : ∀ acc e x, x ∈ (f acc e).entries ↔ x ∈ acc.entries ∨ Q e x)
    (l : List β) (acc : LexItemSet) (x : LexItem) :
    x ∈ (l.foldl f acc).entries ↔ x ∈ acc.entries ∨ ∃ e ∈ l, Q e x := by
  induction l generalizing acc with
  | nil => simp
  | cons e rest ih =>
      rw [List.foldl_cons, ih, hf]
      constructor
      · rintro ((hx | hq) | ⟨e', he', hq'⟩)
        · exact Or.inl hx
        · exact Or.inr ⟨e, by simp, hq⟩
        · exact Or.inr ⟨e', by simp [he'], hq'⟩
      · rintro (hx | ⟨e', he', hq'⟩)
        · exact Or.inl (Or.inl hx)
        · rcases List.mem_cons.mp he' with rfl | he''
          · exact Or.inl (Or.inr hq')
          · exact Or.inr ⟨e', he'', hq'⟩

theorem nodup_foldl {β : Type} (f : LexItemSet → β → LexItemSet)
    (hf : ∀ acc e, acc.entries.Nodup → (f acc e).entries.Nodup)
    (l : List β) (acc : LexItemSet) (h : acc.entries.Nodup) :
    (l.foldl f acc).entries.Nodup := by
  induction l generalizing acc with
  | nil => exact h
  | cons e rest ih => exact ih (f acc e) (hf acc e h)

/-- Master characterization of `build_lex_item_set`: an item belongs to
the result exactly when it is the synthesized separator-prefixed item of
some alternative of some listed symbol. -/
theorem mem_build_lex_item_set (g : LexicalGrammar) (syms : List Symbol)
    (x : LexItem) :
    x ∈ (build_lex_item_set g syms).entries ↔
      ∃ s ∈ syms, ∃ alt ∈ symbol_alternatives g s,
        ∃ sep ∈ separator_rules g, x = sep_item s sep alt := by
  unfold build_lex_item_set
  rw [mem_foldl_insert _
    (fun s x => ∃ alt ∈ symbol_alternatives g s,
      ∃ sep ∈ separator_rules g, x = sep_item s sep alt)]
  · simp
  · intro acc s y
    rw [mem_foldl_insert _
      (fun alt y => ∃ sep ∈ separator_rules g, y = sep_item s sep alt)]
    intro acc' alt z
    rw [mem_foldl_insert _ (fun sep z => z = sep_item s sep alt)]
    intro acc'' sep w
    exact mem_insert_iff acc'' (sep_item s sep alt) w

theorem nodup_build_lex_item_set (g : LexicalGrammar) (syms : List Symbol) :
    (build_lex_item_set g syms).entries.Nodup := by
  unfold build_lex_item_set
  apply nodup_foldl
  · intro acc s h
    apply nodup_foldl
    · intro acc' alt h'
      apply nodup_foldl
      · intro acc'' sep h''
        exact nodup_insert acc'' _ h''
      · exact h'
    · exact h
  · exact List.nodup_nil

/-- C5: for every alternative of every symbol and every separator
alternative, `build_lex_item_set` inserts exactly the item whose rule is
the metadata-annotated separator followed by the alternative, and the
result is the deduplicated union of those items. -/
theorem c5_item_set_is_separator_prefixed_union (g : LexicalGrammar)
    (syms : List Symbol) :
    (∀ x, x ∈ (build_lex_item_set g syms).entries ↔
      ∃ s ∈ syms, ∃ alt ∈ symbol_alternatives g s,
        ∃ sep ∈ separator_rules g, x = sep_item s sep alt) ∧
    (build_lex_item_set g syms).entries.Nodup :=
  ⟨fun x => mem_build_lex_item_set g syms x, nodup_build_lex_item_set g syms⟩

/-- C7: the end-of-input marker contributes exactly the sentinel-0
character-set items (one per separator alternative), and the error
marker contributes nothing. -/
theorem c7_eof_sentinel_and_error_nothing (g : LexicalGrammar)
    (syms : List Symbol) :
    (∀ x ∈ (build_lex_item_set g syms).entries, x.lhs = Symbol.endOfInput →
      ∃ sep ∈ separator_rules g,
        x = sep_item Symbol.endOfInput sep (Rule.charSet [0])) ∧
    (Symbol.endOfInput ∈ syms → ∀ sep ∈ separator_rules g,
      sep_item Symbol.endOfInput sep (Rule.charSet [0]) ∈
        (build_lex_item_set g syms).entries) ∧
    (∀ x ∈ (build_lex_item_set g syms).entries, x.lhs ≠ Symbol.error) := by
  refine ⟨?_, ?_, ?_⟩
  · intro x hx hlhs
    rcases (mem_build_lex_item_set g syms x).mp hx with
      ⟨s, _, alt, halt, sep, hsep, rfl⟩
    have hs : s = Symbol.endOfInput := hlhs
    subst hs
    have : alt = Rule.charSet [0] := by
      simpa [symbol_alternatives] using halt
    subst this
    exact ⟨sep, hsep, rfl⟩
  · intro heof sep hsep
    exact (mem_build_lex_item_set g syms _).mpr
      ⟨Symbol.endOfInput, heof, Rule.charSet [0], by simp [symbol_alternatives],
        sep, hsep, rfl⟩
  · intro x hx hlhs
    rcases (mem_build_lex_item_set g syms x).mp hx with
      ⟨s, _, alt, halt, sep, hsep, rfl⟩
    have hs : s = Symbol.error := hlhs
    subst hs
    simp [symbol_alternatives] at halt

/-- C10: every item of a built item set comes from a listed symbol that
is either the end-of-input marker or a token; nonterminals (and the
error marker) contribute nothing. -/
theorem c10_only_tokens_and_eof_contribute (g : LexicalGrammar)
    (syms : List Symbol) :
    ∀ x ∈ (build_lex_item_set g syms).entries,
      x.lhs ∈ syms ∧ (x.lhs = Symbol.endOfInput ∨ x.lhs.is_token = true) := by
  intro x hx
  rcases (mem_build_lex_item_set g syms x).mp hx with
    ⟨s, hs, alt, halt, sep, hsep, rfl⟩
  refine ⟨hs, ?_⟩
  cases s with
  | error => simp [symbol_alternatives] at halt
  | endOfInput => exact Or.inl rfl
  | terminal i => exact Or.inr rfl
  | nonterminal i => simp [symbol_alternatives] at halt

/-- Witness for C7: the end-of-input item with the blank separator
alternative is present in a concretely built item set. -/
theorem c7_witness :
    sep_item Symbol.endOfInput Rule.blank (Rule.charSet [0]) ∈
      (build_lex_item_set oneTokenGrammar [Symbol.endOfInput]).entries :=
  (c7_eof_sentinel_and_error_nothing oneTokenGrammar [Symbol.endOfInput]).2.1
    (by decide) Rule.blank (by decide)

/-- Witness for C10 on a concretely built item set. -/
theorem c10_witness :
    (sep_item (Symbol.terminal 0) Rule.blank (Rule.charSet [97])).lhs ∈
        ([Symbol.terminal 0] : List Symbol) ∧
      ((sep_item (Symbol.terminal 0) Rule.blank (Rule.charSet [97])).lhs =
          Symbol.endOfInput ∨
        (sep_item (Symbol.terminal 0) Rule.blank
          (Rule.charSet [97])).lhs.is_token = true) :=
  c10_only_tokens_and_eof_contribute oneTokenGrammar [Symbol.terminal 0] _
    (by decide)

/-- C8: the builder is a pure function of its inputs — equal grammars
and parse tables yield identical lex tables and identical parse-state
assignments. -/
theorem c8_determinism (fuel : Nat) (pt1 pt2 : ParseTable)
    (g1 g2 : LexicalGrammar) (hpt : pt1 = pt2) (hg : g1 = g2) :
    build_lex_table fuel pt1 g1 = build_lex_table fuel pt2 g2 := by
  subst hpt; subst hg; rfl

/-- Witness for C8 at a concrete grammar and parse table. -/
theorem c8_determinism_witness :
    build_lex_table 20 twoTokenParseTable twoTokenGrammar =
      build_lex_table 20 twoTokenParseTable twoTokenGrammar :=
  c8_determinism 20 twoTokenParseTable twoTokenParseTable
    twoTokenGrammar twoTokenGrammar rfl rfl

/-- C1 counterexample: on a concrete item set the source folds the
Advance action against the state's default action — the claimed fold
against the range occupant would store the Advance (the range is empty),
but the source drops it because it loses to the default Accept. -/
theorem c1_counterexample :
    populate_lex_state 10 cexItemSet 0 cexBuilder ≠
      populate_lex_state_claim 10 cexItemSet 0 cexBuilder ∧
    (populate_lex_state 10 cexItemSet 0 cexBuilder).map
      (fun b => (b.lex_table.state 0).actions) = some [] ∧
    (populate_lex_state_claim 10 cexItemSet 0 cexBuilder).map
      (fun b => (b.lex_table.state 0).actions) =
      some [([98], LexAction.Advance 1 { isSet := true, min := 0, max := 0 })] := by
  refine ⟨by decide, rfl, rfl⟩

/-- C2 counterexample: running the advance pass before the accept pass
changes the resulting lex state on a concrete item set (the advance pass
consults the default action the accept pass installs). -/
theorem c2_counterexample :
    populate_lex_state 10 cexItemSet 0 cexBuilder ≠
      populate_lex_state_advance_first 10 cexItemSet 0 cexBuilder ∧
    (populate_lex_state 10 cexItemSet 0 cexBuilder).map
      (fun b => (b.lex_table.state 0).actions) = some [] ∧
    (populate_lex_state_advance_first 10 cexItemSet 0 cexBuilder).map
      (fun b => (b.lex_table.state 0).actions) =
      some [([98], LexAction.Advance 1 { isSet := true, min := 0, max := 0 })] := by
  refine ⟨by decide, rfl, rfl⟩

theorem itemSetEq_refl (a : LexItemSet) : itemSetEq a a = true := by
  simp [itemSetEq, List.all_eq_true]

theorem itemSetEq_symm {a b : LexItemSet} (h : itemSetEq a b = true) :
    itemSetEq b a = true := by
  unfold itemSetEq at *
  simp only [Bool.and_eq_true, List.all_eq_true, decide_eq_true_eq] at *
  exact ⟨h.2, h.1⟩

theorem itemSetEq_trans {a b c : LexItemSet} (h1 : itemSetEq a b = true)
    (h2 : itemSetEq b c = true) : itemSetEq a c = true := by
  unfold itemSetEq at *
  simp only [Bool.and_eq_true, List.all_eq_true, decide_eq_true_eq] at *
  exact ⟨fun x hx => h2.1 x (h1.1 x hx), fun x hx => h1.2 x (h2.2 x hx)⟩

/-- In a pairwise-distinct interning map, the lookup of an item set
returns exactly the entry whose key is set-equal to it. -/
theorem find_itemSetEq_unique (I K : LexItemSet) (i0 : Int) :
    ∀ l : List (LexItemSet × Int),
      l.Pairwise (fun p q => itemSetEq p.1 q.1 = false) →
      (K, i0) ∈ l → itemSetEq K I = true →
      l.find? (fun p => itemSetEq p.1 I) = some (K, i0) := by
  intro l
  induction l with
  | nil => intro _ h; simp at h
  | cons p rest ih =>
      intro hpw hmem heq
      rcases List.mem_cons.mp hmem with hp | htail
      · subst hp
        exact List.find?_cons_of_pos _ heq
      · have hfalse : itemSetEq p.1 K = false :=
          (List.pairwise_cons.mp hpw).1 (K, i0) htail
        have hpred : itemSetEq p.1 I = false := by
          by_contra hcon
          have htrue : itemSetEq p.1 I = true := by
            cases h : itemSetEq p.1 I
            · exact absurd h hcon
            · rfl
          have : itemSetEq p.1 K = true :=
            itemSetEq_trans htrue (itemSetEq_symm heq)
          rw [this] at hfalse
          exact absurd hfalse (by simp)
        rw [List.find?_cons_of_neg _ (by simp [hpred])]
        exact ih (List.pairwise_cons.mp hpw).2 htail heq

theorem length_setState (t : LexTable) (sid : Int) (s : LexState) :
    (t.setState sid s).states.length = t.states.length := by
  unfold LexTable.setState
  split <;> simp

theorem error_setState_ne (t : LexTable) (sid : Int) (s : LexState)
    (h : sid ≠ LexTable.ERROR_STATE_ID) :
    (t.setState sid s).error_state = t.error_state := by
  unfold LexTable.setState
  rw [if_neg h]

theorem getD_setState_ne (t : LexTable) (sid : Int) (s : LexState) (n : Nat)
    (hsid : -1 ≤ sid) (h : (n : Int) ≠ sid) :
    (t.setState sid s).states.getD n default = t.states.getD n default := by
  unfold LexTable.setState
  by_cases he : sid = LexTable.ERROR_STATE_ID
  · rw [if_pos he]
  · rw [if_neg he]
    have he' : sid ≠ -1 := by simpa [LexTable.ERROR_STATE_ID] using he
    have hne : sid.toNat ≠ n := by omega
    simp [List.getD, List.getElem?_set, hne]

theorem state_updateState_self (t : LexTable) (sid : Int)
    (f : LexState → LexState)
    (h : sid = LexTable.ERROR_STATE_ID ∨ (0 ≤ sid ∧ sid.toNat < t.states.length)) :
    (t.updateState sid f).state sid = f (t.state sid) := by
  unfold LexTable.updateState LexTable.setState LexTable.state
  rcases h with he | ⟨h0, hlt⟩
  · simp [he]
  · have hne : sid ≠ LexTable.ERROR_STATE_ID := by
      simp only [LexTable.ERROR_STATE_ID]; omega
    simp only [if_neg hne]
    simp [List.getD, List.getElem?_set, hlt]

theorem onlyAt_refl (sid : Int) (t : LexTable) : OnlyAt sid t t :=
  ⟨rfl, fun _ => rfl, fun _ _ => rfl⟩

theorem onlyAt_trans {sid : Int} {t1 t2 t3 : LexTable}
    (h1 : OnlyAt sid t1 t2) (h2 : OnlyAt sid t2 t3) : OnlyAt sid t1 t3 :=
  ⟨h2.1.trans h1.1,
   fun hne => (h2.2.1 hne).trans (h1.2.1 hne),
   fun n hn => (h2.2.2 n hn).trans (h1.2.2 n hn)⟩

theorem onlyAt_update (t : LexTable) (sid : Int) (f : LexState → LexState)
    (h : -1 ≤ sid) : OnlyAt sid t (t.updateState sid f) :=
  ⟨length_setState t sid _,
   fun hne => error_setState_ne t sid _ hne,
   fun n hn => getD_setState_ne t sid _ n h hn⟩

theorem fold_builder_ids {β : Type} (step : Builder → β → Builder)
    (h : ∀ b e, (step b e).lex_state_ids = b.lex_state_ids) :
    ∀ (l : List β) (b : Builder),
      (l.foldl step b).lex_state_ids = b.lex_state_ids := by
  intro l
  induction l with
  | nil => intro b; rfl
  | cons e rest ih => intro b; rw [List.foldl_cons, ih, h]

theorem fold_builder_onlyAt {β : Type} (sid : Int) (step : Builder → β → Builder)
    (h : ∀ b e, OnlyAt sid b.lex_table (step b e).lex_table) :
    ∀ (l : List β) (b : Builder),
      OnlyAt sid b.lex_table ((l.foldl step b).lex_table) := by
  intro l
  induction l with
  | nil => intro b; exact onlyAt_refl sid _
  | cons e rest ih =>
      intro b
      exact onlyAt_trans (h b e) (ih (step b e))

theorem accept_pass_ids (I : LexItemSet) (sid : Int) (b : Builder) :
    (add_accept_token_actions I sid b).lex_state_ids = b.lex_state_ids := by
  unfold add_accept_token_actions
  apply fold_builder_ids
  intro b' it
  unfold accept_step
  dsimp only
  split
  · split
    · rfl
    · rfl
  · rfl

theorem accept_pass_onlyAt (I : LexItemSet) (sid : Int) (b : Builder)
    (h : -1 ≤ sid) :
    OnlyAt sid b.lex_table (add_accept_token_actions I sid b).lex_table := by
  unfold add_accept_token_actions
  apply fold_builder_onlyAt
  intro b' it
  unfold accept_step
  dsimp only
  split
  · split
    · exact onlyAt_update _ sid _ h
    · exact onlyAt_refl sid _
  · exact onlyAt_refl sid _

theorem token_start_ids (I : LexItemSet) (sid : Int) (b : Builder) :
    (add_token_start I sid b).lex_state_ids = b.lex_state_ids := by
  unfold add_token_start
  apply fold_builder_ids
  intro b' it
  unfold token_start_step
  dsimp only
  split
  · rfl
  · rfl

theorem token_start_onlyAt (I : LexItemSet) (sid : Int) (b : Builder)
    (h : -1 ≤ sid) :
    OnlyAt sid b.lex_table (add_token_start I sid b).lex_table := by
  unfold add_token_start
  apply fold_builder_onlyAt
  intro b' it
  unfold token_start_step
  dsimp only
  split
  · exact onlyAt_update _ sid _ h
  · exact onlyAt_refl sid _

theorem framedAt_of_onlyAt {sid : Int} {b b' : Builder}
    (hids : b'.lex_state_ids = b.lex_state_ids)
    (h : OnlyAt sid b.lex_table b'.lex_table) : FramedAt sid b b' := by
  refine ⟨fun p hp => by rw [hids]; exact hp, ?_, h.2.1, fun n _ hn => h.2.2 n hn⟩
  exact le_of_eq h.1.symm

theorem framedAt_trans {sid : Int} {b1 b2 b3 : Builder}
    (h1 : FramedAt sid b1 b2) (h2 : FramedAt sid b2 b3) : FramedAt sid b1 b3 := by
  refine ⟨fun p hp => h2.1 p (h1.1 p hp), h1.2.1.trans h2.2.1, ?_, ?_⟩
  · intro hne
    exact (h2.2.2.1 hne).trans (h1.2.2.1 hne)
  · intro n hn hne
    exact (h2.2.2.2 n (lt_of_lt_of_le hn h1.2.1) hne).trans (h1.2.2.2 n hn hne)

theorem framedAt_of_framedAdd {sid : Int} {b b' : Builder}
    (h : FramedAdd b b') : FramedAt sid b b' :=
  ⟨h.1, h.2.1, fun _ => h.2.2.1, fun n hn _ => h.2.2.2 n hn⟩

theorem framedAdd_trans {b1 b2 b3 : Builder}
    (h1 : FramedAdd b1 b2) (h2 : FramedAdd b2 b3) : FramedAdd b1 b3 :=
  ⟨fun p hp => h2.1 p (h1.1 p hp), h1.2.1.trans h2.2.1,
   h2.2.2.1.trans h1.2.2.1,
   fun n hn => (h2.2.2.2 n (lt_of_lt_of_le hn h1.2.1)).trans (h1.2.2.2 n hn)⟩

theorem framedAdd_refl (b : Builder) : FramedAdd b b :=
  ⟨fun _ hp => hp, le_refl _, rfl, fun _ _ => rfl⟩

theorem framedAt_refl (sid : Int) (b : Builder) : FramedAt sid b b :=
  ⟨fun _ hp => hp, le_refl _, fun _ => rfl, fun _ _ _ => rfl⟩

/-- The central frame/invariant lemma of the construction, by induction on
fuel: `add_lex_state` never touches a pre-existing state, returns a
non-negative interned id under the builder invariant, and leaves its
item set interned; `populate_lex_state` and `add_advance_actions` touch
only their target state (besides appending new ones); all three preserve
the builder invariant. -/
theorem builder_frame : ∀ fuel : Nat,
    (∀ I b i b', add_lex_state fuel I b = some (i, b') →
      FramedAdd b b' ∧ (Inv b → Inv b' ∧ 0 ≤ i) ∧
      ∃ K, (K, i) ∈ b'.lex_state_ids ∧ itemSetEq K I = true) ∧
    (∀ I sid b b', -1 ≤ sid → populate_lex_state fuel I sid b = some b' →
      FramedAt sid b b' ∧ (Inv b → Inv b')) ∧
    (∀ ts sid b b', -1 ≤ sid → add_advance_actions fuel ts sid b = some b' →
      FramedAt sid b b' ∧ (Inv b → Inv b')) := by
  intro fuel
  induction fuel with
  | zero =>
      refine ⟨?_, ?_, ?_⟩
      · intro I b i b' h
        simp [add_lex_state] at h
      · intro I sid b b' _ h
        simp [populate_lex_state] at h
      · intro ts sid b b' _ h
        simp [add_advance_actions] at h
  | succ f ih =>
      obtain ⟨ihA, ihP, ihAdv⟩ := ih
      refine ⟨?_, ?_, ?_⟩
      · -- add_lex_state
        intro I b i b' h
        simp only [add_lex_state] at h
        cases hfind : b.lex_state_ids.find? (fun p => itemSetEq p.1 I) with
        | some p =>
            rw [hfind] at h
            simp only [Option.some.injEq, Prod.mk.injEq] at h
            obtain ⟨hi, hb⟩ := h
            subst hi; subst hb
            refine ⟨framedAdd_refl b, ?_, ?_⟩
            · intro hInv
              exact ⟨hInv, hInv.1 p (List.mem_of_find?_eq_some hfind)⟩
            · refine ⟨p.1, by simpa using List.mem_of_find?_eq_some hfind, ?_⟩
              have hpred := List.find?_some hfind
              simpa using hpred
        | none =>
            rw [hfind] at h
            dsimp only [LexTable.add_state] at h
            rw [Option.map_eq_some'] at h
            obtain ⟨b2, hpop, heq⟩ := h
            simp only [Prod.mk.injEq] at heq
            obtain ⟨hi, hb⟩ := heq
            subst hi
            have hb2 := hb.symm
            subst hb2
            have key : ∀ bb : Builder,
                populate_lex_state f I (b.lex_table.states.length : Int) bb =
                  some b' →
                bb.lex_state_ids =
                  b.lex_state_ids ++ [(I, (b.lex_table.states.length : Int))] →
                bb.lex_table.states = b.lex_table.states ++ [(default : LexState)] →
                bb.lex_table.error_state = b.lex_table.error_state →
                FramedAdd b b' ∧
                  (Inv b → Inv b' ∧ 0 ≤ (b.lex_table.states.length : Int)) ∧
                  ∃ K, (K, (b.lex_table.states.length : Int)) ∈ b'.lex_state_ids ∧
                    itemSetEq K I = true := by
              intro bb hpop' hids hstates herr
              have hP := ihP I (b.lex_table.states.length : Int) bb b'
                (by omega) hpop'
              have hlenbb : bb.len = b.len + 1 := by
                simp [Builder.len, hstates]
              have hAdd : FramedAdd b b' := by
                refine ⟨?_, ?_, ?_, ?_⟩
                · intro q hq
                  refine hP.1.1 q ?_
                  rw [hids]
                  exact List.mem_append_left _ hq
                · have := hP.1.2.1
                  omega
                · have hne : (b.lex_table.states.length : Int) ≠
                      LexTable.ERROR_STATE_ID := by
                    simp only [LexTable.ERROR_STATE_ID]; omega
                  exact (hP.1.2.2.1 hne).trans herr
                · intro n hn
                  have hne : (n : Int) ≠ (b.lex_table.states.length : Int) := by
                    simp only [Builder.len] at hn
                    omega
                  have h1 : b'.lex_table.states.getD n default =
                      bb.lex_table.states.getD n default :=
                    hP.1.2.2.2 n (by omega) hne
                  have h2 : bb.lex_table.states.getD n default =
                      b.lex_table.states.getD n default := by
                    rw [hstates]
                    simp only [Builder.len] at hn
                    simp [List.getD, List.getElem?_append, hn]
                  exact h1.trans h2
              refine ⟨hAdd, ?_, ?_⟩
              · intro hInv
                have hInvbb : Inv bb := by
                  constructor
                  · intro q hq
                    rw [hids] at hq
                    rcases List.mem_append.mp hq with hql | hqr
                    · exact hInv.1 q hql
                    · have : q = (I, (b.lex_table.states.length : Int)) := by
                        simpa using hqr
                      subst this
                      exact Int.natCast_nonneg _
                  · rw [hids, List.pairwise_append]
                    refine ⟨hInv.2, by simp, ?_⟩
                    intro q hq q' hq'
                    have : q' = (I, (b.lex_table.states.length : Int)) := by
                      simpa using hq'
                    subst this
                    have := List.find?_eq_none.mp hfind q hq
                    simpa using this
                exact ⟨hP.2 hInvbb, Int.natCast_nonneg _⟩
              · refine ⟨I, ?_, itemSetEq_refl I⟩
                refine hP.1.1 (I, (b.lex_table.states.length : Int)) ?_
                rw [hids]
                exact List.mem_append_right _ (by simp)
            exact key _ hpop rfl rfl rfl
      · -- populate_lex_state
        intro I sid b b' hsid h
        simp only [populate_lex_state, Option.map_eq_some'] at h
        obtain ⟨b2, hadv, hb'⟩ := h
        subst hb'
        set b1 := add_accept_token_actions I sid b with hb1def
        have hF1 : FramedAt sid b b1 :=
          framedAt_of_onlyAt (accept_pass_ids I sid b) (accept_pass_onlyAt I sid b hsid)
        have hF2 := ihAdv _ sid b1 b2 hsid hadv
        have hF3 : FramedAt sid b2 (add_token_start I sid b2) :=
          framedAt_of_onlyAt (token_start_ids I sid b2) (token_start_onlyAt I sid b2 hsid)
        refine ⟨framedAt_trans (framedAt_trans hF1 hF2.1) hF3, ?_⟩
        intro hInv
        have hInv1 : Inv b1 := by
          unfold Inv
          rw [accept_pass_ids]
          exact hInv
        have hInv2 := hF2.2 hInv1
        unfold Inv
        rw [token_start_ids]
        exact hInv2
      · -- add_advance_actions
        intro ts sid b b' hsid h
        simp only [add_advance_actions] at h
        cases ts with
        | nil =>
            simp only [Option.some.injEq] at h
            subst h
            exact ⟨framedAt_refl sid b, fun hInv => hInv⟩
        | cons hd rest =>
            obtain ⟨rule, nis⟩ := hd
            dsimp only at h
            cases hadd : add_lex_state f nis b with
            | none => rw [hadd] at h; simp at h
            | some pr =>
                obtain ⟨nid, b1⟩ := pr
                rw [hadd] at h
                dsimp only at h
                have hA := ihA nis b nid b1 hadd
                split at h
                all_goals
                  have hrest := ihAdv rest sid _ b' hsid h
                all_goals
                  refine ⟨framedAt_trans (framedAt_trans
                    (framedAt_of_framedAdd hA.1) ?_) hrest.1,
                    fun hInv => hrest.2 ((hA.2.1 hInv).1)⟩
                · exact framedAt_of_onlyAt rfl (onlyAt_update _ sid _ hsid)
                · exact framedAt_refl sid b1

theorem sidOk_neg_one {b : Builder} {sid : Int} (h : SidOk b sid) :
    -1 ≤ sid := by
  rcases h with he | ⟨h0, _⟩
  · simp [he, LexTable.ERROR_STATE_ID]
  · omega

theorem sidOk_of_framedAdd {b b' : Builder} {sid : Int}
    (h : FramedAdd b b') (hS : SidOk b sid) : SidOk b' sid := by
  rcases hS with he | ⟨h0, hlt⟩
  · exact Or.inl he
  · exact Or.inr ⟨h0, lt_of_lt_of_le hlt h.2.1⟩

theorem sidOk_of_len_eq {b b' : Builder} {sid : Int}
    (h : b'.len = b.len) (hS : SidOk b sid) : SidOk b' sid := by
  rcases hS with he | ⟨h0, hlt⟩
  · exact Or.inl he
  · exact Or.inr ⟨h0, h ▸ hlt⟩

theorem len_update (b : Builder) (sid : Int) (f : LexState → LexState) :
    (Builder.len { b with lex_table := b.lex_table.updateState sid f }) =
      b.len :=
  length_setState _ _ _

theorem state_eq_of_framedAdd {b b' : Builder} {sid : Int}
    (h : FramedAdd b b') (hS : SidOk b sid) :
    b'.lex_table.state sid = b.lex_table.state sid := by
  rcases hS with he | ⟨h0, hlt⟩
  · unfold LexTable.state
    rw [if_pos he, if_pos he]
    exact h.2.2.1
  · have hne : sid ≠ LexTable.ERROR_STATE_ID := by
      simp only [LexTable.ERROR_STATE_ID]; omega
    unfold LexTable.state
    rw [if_neg hne, if_neg hne]
    exact h.2.2.2 sid.toNat hlt

theorem state_update_self (b : Builder) (sid : Int) (f : LexState → LexState)
    (hS : SidOk b sid) :
    (b.lex_table.updateState sid f).state sid = f (b.lex_table.state sid) :=
  state_updateState_self _ _ _ hS

theorem mem_assocSet {m : List (CharacterSet × LexAction)}
    {k r : CharacterSet} {v A : LexAction}
    (h : (r, A) ∈ assocSet m k v) : (r, A) ∈ m ∨ (r = k ∧ A = v) := by
  induction m with
  | nil =>
      simp only [assocSet, List.mem_singleton, Prod.mk.injEq] at h
      exact Or.inr h
  | cons p rest ih =>
      obtain ⟨k', v'⟩ := p
      simp only [assocSet] at h
      split at h
      · rcases List.mem_cons.mp h with hh | ht
        · simp only [Prod.mk.injEq] at hh
          exact Or.inr hh
        · exact Or.inl (List.mem_cons_of_mem _ ht)
      · rcases List.mem_cons.mp h with hh | ht
        · exact Or.inl (by rw [hh]; exact List.mem_cons_self _ _)
        · rcases ih ht with hm | he
          · exact Or.inl (List.mem_cons_of_mem _ hm)
          · exact Or.inr he

theorem accept_step_state (sid : Int) (b : Builder) (it : LexItem)
    (hS : SidOk b sid) :
    ((accept_step sid b it).lex_table.state sid).actions =
      (b.lex_table.state sid).actions ∧
    ((accept_step sid b it).lex_table.state sid).is_token_start =
      (b.lex_table.state sid).is_token_start ∧
    WinChain ((b.lex_table.state sid).default_action)
      ((accept_step sid b it).lex_table.state sid).default_action := by
  unfold accept_step
  dsimp only
  split
  · split
    · next hres =>
        have hst := state_update_self b sid
          (fun st => { st with default_action := LexAction.Accept it.lhs (get_completion_status it.rule).precedence }) hS
        refine ⟨?_, ?_, ?_⟩
        · rw [hst]
        · rw [hst]
        · rw [hst]
          exact Relation.ReflTransGen.single hres
    · exact ⟨rfl, rfl, Relation.ReflTransGen.refl⟩
  · exact ⟨rfl, rfl, Relation.ReflTransGen.refl⟩

theorem accept_step_len (sid : Int) (b : Builder) (it : LexItem) :
    (accept_step sid b it).len = b.len := by
  unfold accept_step
  dsimp only
  split
  · split
    · exact len_update b sid _
    · rfl
  · rfl

theorem accept_fold_state (sid : Int) (l : List LexItem) :
    ∀ b : Builder, SidOk b sid →
      ((l.foldl (accept_step sid) b).lex_table.state sid).actions =
        (b.lex_table.state sid).actions ∧
      ((l.foldl (accept_step sid) b).lex_table.state sid).is_token_start =
        (b.lex_table.state sid).is_token_start ∧
      WinChain ((b.lex_table.state sid).default_action)
        ((l.foldl (accept_step sid) b).lex_table.state sid).default_action := by
  induction l with
  | nil => exact fun b _ => ⟨rfl, rfl, Relation.ReflTransGen.refl⟩
  | cons it rest ih =>
      intro b hS
      have hstep := accept_step_state sid b it hS
      have hS' : SidOk (accept_step sid b it) sid :=
        sidOk_of_len_eq (accept_step_len sid b it) hS
      have hrest := ih (accept_step sid b it) hS'
      exact ⟨hrest.1.trans hstep.1, hrest.2.1.trans hstep.2.1,
        Relation.ReflTransGen.trans hstep.2.2 hrest.2.2⟩

theorem token_start_step_state (sid : Int) (b : Builder) (it : LexItem)
    (hS : SidOk b sid) :
    ((token_start_step sid b it).lex_table.state sid).actions =
      (b.lex_table.state sid).actions ∧
    ((token_start_step sid b it).lex_table.state sid).default_action =
      (b.lex_table.state sid).default_action := by
  unfold token_start_step
  dsimp only
  split
  · have hst := state_update_self b sid
      (fun st => { st with is_token_start := true }) hS
    exact ⟨by rw [hst], by rw [hst]⟩
  · exact ⟨rfl, rfl⟩

theorem token_start_step_len (sid : Int) (b : Builder) (it : LexItem) :
    (token_start_step sid b it).len = b.len := by
  unfold token_start_step
  dsimp only
  split
  · exact len_update b sid _
  · rfl

theorem token_start_fold_state (sid : Int) (l : List LexItem) :
    ∀ b : Builder, SidOk b sid →
      ((l.foldl (token_start_step sid) b).lex_table.state sid).actions =
        (b.lex_table.state sid).actions ∧
      ((l.foldl (token_start_step sid) b).lex_table.state sid).default_action =
        (b.lex_table.state sid).default_action := by
  induction l with
  | nil => exact fun b _ => ⟨rfl, rfl⟩
  | cons it rest ih =>
      intro b hS
      have hstep := token_start_step_state sid b it hS
      have hS' : SidOk (token_start_step sid b it) sid :=
        sidOk_of_len_eq (token_start_step_len sid b it) hS
      have hrest := ih (token_start_step sid b it) hS'
      exact ⟨hrest.1.trans hstep.1, hrest.2.trans hstep.2⟩

/-- Behaviour of the advance loop on its target state: the default
action and the token-start flag are untouched; every listed successor
item set ends up interned; and every entry of the resulting action map
either predates the loop or is the Advance action of a listed
transition, carrying the successor's precedence range, that won its
conflict query against the (stable) default action. -/
theorem advance_loop_spec :
    ∀ (fuel : Nat) (ts : List (CharacterSet × LexItemSet)) (sid : Int)
      (b b' : Builder),
      SidOk b sid →
      add_advance_actions fuel ts sid b = some b' →
      (b'.lex_table.state sid).default_action =
        (b.lex_table.state sid).default_action ∧
      (b'.lex_table.state sid).is_token_start =
        (b.lex_table.state sid).is_token_start ∧
      (∀ rn ∈ ts, ∃ K nid, (K, nid) ∈ b'.lex_state_ids ∧
        itemSetEq K rn.2 = true) ∧
      (∀ r A, (r, A) ∈ (b'.lex_table.state sid).actions →
        (r, A) ∈ (b.lex_table.state sid).actions ∨
        ∃ nis nid, (r, nis) ∈ ts ∧
          A = LexAction.Advance nid (precedence_range_for_item_set nis) ∧
          resolve A ((b.lex_table.state sid).default_action) = true ∧
          ∃ K, (K, nid) ∈ b'.lex_state_ids ∧ itemSetEq K nis = true) := by
  intro fuel
  induction fuel with
  | zero =>
      intro ts sid b b' _ h
      simp [add_advance_actions] at h
  | succ f ih =>
      intro ts sid b b' hS h
      simp only [add_advance_actions] at h
      cases ts with
      | nil =>
          simp only [Option.some.injEq] at h
          subst h
          exact ⟨rfl, rfl, by simp, fun r A hm => Or.inl hm⟩
      | cons hd rest =>
          obtain ⟨rule, nis⟩ := hd
          dsimp only at h
          cases hadd : add_lex_state f nis b with
          | none => rw [hadd] at h; simp at h
          | some pr =>
              obtain ⟨nid, b1⟩ := pr
              rw [hadd] at h
              dsimp only at h
              have hfr := (builder_frame f).1 nis b nid b1 hadd
              have hstate1 : b1.lex_table.state sid = b.lex_table.state sid :=
                state_eq_of_framedAdd hfr.1 hS
              have hS1 : SidOk b1 sid := sidOk_of_framedAdd hfr.1 hS
              split at h
              · next hres =>
                  have hSu := sidOk_of_len_eq (len_update b1 sid (fun st => { st with actions := assocSet st.actions rule (LexAction.Advance nid (precedence_range_for_item_set nis)) })) hS1
                  have hrest := ih rest sid _ b' hSu h
                  have hframe := (builder_frame f).2.2 rest sid _ b'
                    (sidOk_neg_one hS) h
                  dsimp only at hrest hframe
                  rw [state_update_self b1 sid _ hS1] at hrest
                  dsimp only at hrest
                  rw [hstate1] at hrest hres
                  refine ⟨hrest.1, hrest.2.1, ?_, ?_⟩
                  · intro rn hrn
                    rcases List.mem_cons.mp hrn with hh | ht
                    · obtain ⟨K, hK, hKeq⟩ := hfr.2.2
                      subst hh
                      exact ⟨K, nid, hframe.1.1 (K, nid) hK, hKeq⟩
                    · exact hrest.2.2.1 rn ht
                  · intro r A hm
                    rcases hrest.2.2.2 r A hm with hin | hnew
                    · rcases mem_assocSet hin with hb | ⟨hr, hA⟩
                      · exact Or.inl hb
                      · subst hr
                        subst hA
                        refine Or.inr ⟨nis, nid, List.mem_cons_self _ _, rfl,
                          hres, ?_⟩
                        obtain ⟨K, hK, hKeq⟩ := hfr.2.2
                        exact ⟨K, hframe.1.1 (K, nid) hK, hKeq⟩
                    · obtain ⟨nis', nid', hmem', hA', hres', hK'⟩ := hnew
                      exact Or.inr ⟨nis', nid', List.mem_cons_of_mem _ hmem',
                        hA', hres', hK'⟩
              · -- the advance action lost: the builder is unchanged
                  have hrest := ih rest sid b1 b' hS1 h
                  have hframe := (builder_frame f).2.2 rest sid b1 b'
                    (sidOk_neg_one hS) h
                  rw [hstate1] at hrest
                  refine ⟨hrest.1, hrest.2.1, ?_, ?_⟩
                  · intro rn hrn
                    rcases List.mem_cons.mp hrn with hh | ht
                    · obtain ⟨K, hK, hKeq⟩ := hfr.2.2
                      subst hh
                      exact ⟨K, nid, hframe.1.1 (K, nid) hK, hKeq⟩
                    · exact hrest.2.2.1 rn ht
                  · intro r A hm
                    rcases hrest.2.2.2 r A hm with hin | hnew
                    · exact Or.inl hin
                    · obtain ⟨nis', nid', hmem', hA', hres', hK'⟩ := hnew
                      exact Or.inr ⟨nis', nid', List.mem_cons_of_mem _ hmem',
                        hA', hres', hK'⟩

theorem sidOk_of_framedAt {b b' : Builder} {sid j : Int}
    (h : FramedAt sid b b') (hS : SidOk b j) : SidOk b' j := by
  rcases hS with he | ⟨h0, hlt⟩
  · exact Or.inl he
  · exact Or.inr ⟨h0, lt_of_lt_of_le hlt h.2.1⟩

/-- Behaviour of `populate_lex_state` on its target state: the default
action evolves from its previous value through winning conflict queries
only; every derived transition's successor gets interned; and every new
action-map entry is a winning Advance action of a derived transition. -/
theorem populate_spec (fuel : Nat) (I : LexItemSet) (sid : Int)
    (b b' : Builder) (hS : SidOk b sid)
    (h : populate_lex_state fuel I sid b = some b') :
    WinChain ((b.lex_table.state sid).default_action)
      ((b'.lex_table.state sid).default_action) ∧
    (∀ rn ∈ I.transitions, ∃ K nid, (K, nid) ∈ b'.lex_state_ids ∧
      itemSetEq K rn.2 = true) ∧
    (∀ r A, (r, A) ∈ (b'.lex_table.state sid).actions →
      (r, A) ∈ (b.lex_table.state sid).actions ∨
      ∃ nis nid, (r, nis) ∈ I.transitions ∧
        A = LexAction.Advance nid (precedence_range_for_item_set nis) ∧
        resolve A ((b'.lex_table.state sid).default_action) = true ∧
        ∃ K, (K, nid) ∈ b'.lex_state_ids ∧ itemSetEq K nis = true) := by
  cases fuel with
  | zero => simp [populate_lex_state] at h
  | succ f =>
      simp only [populate_lex_state, Option.map_eq_some'] at h
      obtain ⟨b2, hadv, hb'⟩ := h
      subst hb'
      have hacc :
          ((add_accept_token_actions I sid b).lex_table.state sid).actions =
            (b.lex_table.state sid).actions ∧
          ((add_accept_token_actions I sid b).lex_table.state sid).is_token_start =
            (b.lex_table.state sid).is_token_start ∧
          WinChain ((b.lex_table.state sid).default_action)
            ((add_accept_token_actions I sid b).lex_table.state sid).default_action :=
        accept_fold_state sid I.entries b hS
      have hS1 : SidOk (add_accept_token_actions I sid b) sid :=
        sidOk_of_len_eq (accept_pass_onlyAt I sid b (sidOk_neg_one hS)).1 hS
      have hadvspec := advance_loop_spec f I.transitions sid
        (add_accept_token_actions I sid b) b2 hS1 hadv
      have hS2 : SidOk b2 sid :=
        sidOk_of_framedAt ((builder_frame f).2.2 I.transitions sid
          (add_accept_token_actions I sid b) b2 (sidOk_neg_one hS) hadv).1 hS1
      have htok :
          ((add_token_start I sid b2).lex_table.state sid).actions =
            (b2.lex_table.state sid).actions ∧
          ((add_token_start I sid b2).lex_table.state sid).default_action =
            (b2.lex_table.state sid).default_action :=
        token_start_fold_state sid I.entries b2 hS2
      refine ⟨?_, ?_, ?_⟩
      · rw [htok.2, hadvspec.1]
        exact hacc.2.2
      · intro rn hrn
        obtain ⟨K, nid, hK, hKeq⟩ := hadvspec.2.2.1 rn hrn
        refine ⟨K, nid, ?_, hKeq⟩
        rw [token_start_ids]
        exact hK
      · intro r A hm
        rw [htok.1] at hm
        rcases hadvspec.2.2.2 r A hm with hin | ⟨nis, nid, hmem, hA, hres, K, hK, hKeq⟩
        · rw [hacc.1] at hin
          exact Or.inl hin
        · refine Or.inr ⟨nis, nid, hmem, hA, ?_, K, ?_, hKeq⟩
          · rw [htok.2, hadvspec.1]
            exact hres
          · rw [token_start_ids]
            exact hK

/-- C1 (amended): when populating a lex state, every derived
transition's successor item set is interned to a state id, and every
stored character-range action is the Advance action of a derived
transition, targeting the interned successor and carrying its precedence
range, stored only because the conflict manager reported it wins over
the state's default action (not over the occupant of that range). -/
theorem c1_amended_theorem (fuel : Nat) (I : LexItemSet) (sid : Int)
    (b b' : Builder) (hS : SidOk b sid)
    (hempty : (b.lex_table.state sid).actions = [])
    (h : populate_lex_state fuel I sid b = some b') :
    (∀ rn ∈ I.transitions, ∃ K nid, (K, nid) ∈ b'.lex_state_ids ∧
      itemSetEq K rn.2 = true) ∧
    (∀ r A, (r, A) ∈ (b'.lex_table.state sid).actions →
      ∃ nis nid, (r, nis) ∈ I.transitions ∧
        A = LexAction.Advance nid (precedence_range_for_item_set nis) ∧
        (∃ K, (K, nid) ∈ b'.lex_state_ids ∧ itemSetEq K nis = true) ∧
        resolve A ((b'.lex_table.state sid).default_action) = true) := by
  have hp := populate_spec fuel I sid b b' hS h
  refine ⟨hp.2.1, ?_⟩
  intro r A hm
  rcases hp.2.2 r A hm with hin | ⟨nis, nid, hmem, hA, hres, hK⟩
  · rw [hempty] at hin
    simp at hin
  · exact ⟨nis, nid, hmem, hA, hK, hres⟩

/-- Witness for the amended C1 on a concrete item set: the stored action
on character 98 is the Advance to the interned successor, and it won
against the default action. -/
theorem c1_amended_witness :
    ∃ nis nid, (([98] : CharacterSet), nis) ∈ pendingItemSet.transitions ∧
      LexAction.advance 1 ⟨true, 0, 0⟩ =
        LexAction.Advance nid (precedence_range_for_item_set nis) ∧
      (∃ K, (K, nid) ∈ pendingResult.lex_state_ids ∧ itemSetEq K nis = true) ∧
      resolve (LexAction.advance 1 ⟨true, 0, 0⟩)
        ((pendingResult.lex_table.state 0).default_action) = true :=
  (c1_amended_theorem 10 pendingItemSet 0 cexBuilder pendingResult
    (Or.inr (by decide)) rfl rfl).2 [98] (LexAction.advance 1 ⟨true, 0, 0⟩)
    (by decide)

/-- C6: every mutation of a lex-table cell is guarded by a winning
conflict-manager query against the stored default action: the default
action evolves only through winning rewrites, and (when the state's
action map starts empty, as for every state populated during the build)
every stored range action won its query against the default action. -/
theorem c6_no_losing_overwrite (fuel : Nat) (I : LexItemSet) (sid : Int)
    (b b' : Builder) (hS : SidOk b sid)
    (hempty : (b.lex_table.state sid).actions = [])
    (h : populate_lex_state fuel I sid b = some b') :
    WinChain ((b.lex_table.state sid).default_action)
      ((b'.lex_table.state sid).default_action) ∧
    ∀ r A, (r, A) ∈ (b'.lex_table.state sid).actions →
      resolve A ((b'.lex_table.state sid).default_action) = true := by
  have hp := populate_spec fuel I sid b b' hS h
  refine ⟨hp.1, fun r A hm => ?_⟩
  rcases hp.2.2 r A hm with hin | ⟨_, _, _, _, hres, _⟩
  · rw [hempty] at hin
    simp at hin
  · exact hres

/-- Witness for C6 at a concrete populate run. -/
theorem c6_witness :
    WinChain ((cexBuilder.lex_table.state 0).default_action)
      ((cexResult.lex_table.state 0).default_action) :=
  (c6_no_losing_overwrite 10 cexItemSet 0 cexBuilder cexResult
    (Or.inr (by decide)) rfl rfl).1

/-- A lookup hit returns the recorded id without modifying the builder. -/
theorem add_lex_state_found (fuel : Nat) (I K : LexItemSet) (i0 : Int)
    (b : Builder) (res : Int × Builder)
    (hInv : Inv b) (hmem : (K, i0) ∈ b.lex_state_ids)
    (hKI : itemSetEq K I = true)
    (h : add_lex_state fuel I b = some res) : res = (i0, b) := by
  cases fuel with
  | zero => simp [add_lex_state] at h
  | succ f =>
      simp only [add_lex_state] at h
      rw [find_itemSetEq_unique I K i0 b.lex_state_ids hInv.2 hmem hKI] at h
      simp only [Option.some.injEq] at h
      exact h.symm

/-- Every id recorded by the per-parse-state loop stays in force: a
later parse state whose item set is set-equal to a recorded key is
assigned the recorded id. -/
theorem build_parse_states_stable (fuel : Nat) (g : LexicalGrammar) :
    ∀ (ps : List ParseState) (b : Builder) (ps' : List ParseState)
      (b2 : Builder) (K : LexItemSet) (i0 : Int),
      build_parse_states fuel g ps b = some (ps', b2) →
      Inv b → (K, i0) ∈ b.lex_state_ids →
      ∀ j, j < ps.length →
        itemSetEq K
          (build_lex_item_set g ((ps.getD j default).expected_inputs)) = true →
        (ps'.getD j default).lex_state_id = i0 := by
  intro ps
  induction ps with
  | nil => intro b ps' b2 K i0 _ _ _ j hj; simp at hj
  | cons p rest ih =>
      intro b ps' b2 K i0 h hInv hmem j hj hKeq
      simp only [build_parse_states] at h
      cases hadd : add_lex_state fuel (build_lex_item_set g p.expected_inputs) b with
      | none => rw [hadd] at h; simp at h
      | some pr =>
          obtain ⟨sid, b1⟩ := pr
          rw [hadd] at h
          dsimp only at h
          rw [Option.map_eq_some'] at h
          obtain ⟨r, hr, heq⟩ := h
          simp only [Prod.mk.injEq] at heq
          obtain ⟨hps', hb2⟩ := heq
          subst hps'
          cases j with
          | zero =>
              have hfound := add_lex_state_found fuel _ K i0 b (sid, b1)
                hInv hmem (by simpa using hKeq) hadd
              simp only [Prod.mk.injEq] at hfound
              simp [hfound.1]
          | succ j =>
              have hfr := (builder_frame fuel).1 _ b sid b1 hadd
              have hInv1 : Inv b1 := (hfr.2.1 hInv).1
              have hmem1 : (K, i0) ∈ b1.lex_state_ids := hfr.1.1 (K, i0) hmem
              have := ih b1 r.1 r.2 K i0 hr hInv1 hmem1 j
                (by simpa using Nat.lt_of_succ_lt_succ hj)
                (by simpa using hKeq)
              simpa using this

/-- Parse states with equal expected-input sets are assigned equal lex
state ids by the per-parse-state loop. -/
theorem build_parse_states_equal (fuel : Nat) (g : LexicalGrammar) :
    ∀ (ps : List ParseState) (b : Builder) (ps' : List ParseState)
      (b2 : Builder),
      build_parse_states fuel g ps b = some (ps', b2) → Inv b →
      ∀ i j, i < ps.length → j < ps.length →
        (ps.getD i default).expected_inputs =
          (ps.getD j default).expected_inputs →
        (ps'.getD i default).lex_state_id =
          (ps'.getD j default).lex_state_id := by
  intro ps
  induction ps with
  | nil => intro b ps' b2 _ _ i j hi; simp at hi
  | cons p rest ih =>
      intro b ps' b2 h hInv i j hi hj hexp
      simp only [build_parse_states] at h
      cases hadd : add_lex_state fuel (build_lex_item_set g p.expected_inputs) b with
      | none => rw [hadd] at h; simp at h
      | some pr =>
          obtain ⟨sid, b1⟩ := pr
          rw [hadd] at h
          dsimp only at h
          rw [Option.map_eq_some'] at h
          obtain ⟨r, hr, heq⟩ := h
          simp only [Prod.mk.injEq] at heq
          obtain ⟨hps', hb2⟩ := heq
          subst hps'
          have hfr := (builder_frame fuel).1 _ b sid b1 hadd
          have hInv1 : Inv b1 := (hfr.2.1 hInv).1
          obtain ⟨K, hK, hKI⟩ := hfr.2.2
          cases i with
          | zero =>
              cases j with
              | zero => rfl
              | succ j =>
                  have hexp' : p.expected_inputs =
                      (rest.getD j default).expected_inputs := by
                    simpa using hexp
                  have := build_parse_states_stable fuel g rest b1 r.1 r.2 K sid
                    hr hInv1 hK j (by simpa using Nat.lt_of_succ_lt_succ hj)
                    (by rw [← hexp']; exact hKI)
                  simp only [List.getD_cons_zero, List.getD_cons_succ]
                  rw [this]
          | succ i =>
              cases j with
              | zero =>
                  have hexp' : p.expected_inputs =
                      (rest.getD i default).expected_inputs := by
                    simpa using hexp.symm
                  have := build_parse_states_stable fuel g rest b1 r.1 r.2 K sid
                    hr hInv1 hK i (by simpa using Nat.lt_of_succ_lt_succ hi)
                    (by rw [← hexp']; exact hKI)
                  simp only [List.getD_cons_zero, List.getD_cons_succ]
                  rw [this]
              | succ j =>
                  have := ih b1 r.1 r.2 hr hInv1 i j
                    (by simpa using Nat.lt_of_succ_lt_succ hi)
                    (by simpa using Nat.lt_of_succ_lt_succ hj)
                    (by simpa using hexp)
                  simpa using this

/-- The empty builder satisfies the builder invariant. -/
theorem inv_empty : Inv ({} : Builder) :=
  ⟨fun p hp => absurd hp (by simp), List.Pairwise.nil⟩

/-- C4: interning by structural equality — a second `add_lex_state` call
on a set-equal item set returns the originally assigned id and leaves
the builder untouched (no second state allocated); consequently two
parse states with identical expected-input symbol sets are assigned the
same `lex_state_id` by the build. -/
theorem c4_state_sharing :
    (∀ (f f' : Nat) (I J : LexItemSet) (b : Builder) (i : Int) (b' : Builder),
      Inv b → itemSetEq I J = true →
      add_lex_state f I b = some (i, b') →
      add_lex_state (f' + 1) J b' = some (i, b')) ∧
    (∀ (fuel : Nat) (g : LexicalGrammar) (pt : ParseTable) (tbl : LexTable)
      (pt' : ParseTable),
      build_lex_table fuel pt g = some (tbl, pt') →
      ∀ i j, i < pt.states.length → j < pt.states.length →
        (pt.states.getD i default).expected_inputs =
          (pt.states.getD j default).expected_inputs →
        (pt'.states.getD i default).lex_state_id =
          (pt'.states.getD j default).lex_state_id) := by
  constructor
  · intro f f' I J b i b' hInv hIJ h1
    have hfr := (builder_frame f).1 I b i b' h1
    obtain ⟨K, hK, hKI⟩ := hfr.2.2
    have hInv' : Inv b' := (hfr.2.1 hInv).1
    have hKJ : itemSetEq K J = true := itemSetEq_trans hKI hIJ
    simp only [add_lex_state]
    rw [find_itemSetEq_unique J K i b'.lex_state_ids hInv'.2 hK hKJ]
  · intro fuel g pt tbl pt' h i j hi hj hexp
    unfold build_lex_table at h
    cases hbs : build_parse_states fuel g pt.states {} with
    | none => rw [hbs] at h; simp at h
    | some r =>
        obtain ⟨states', b⟩ := r
        rw [hbs] at h
        dsimp only at h
        rw [Option.map_eq_some'] at h
        obtain ⟨b2, hpop, heq⟩ := h
        simp only [Prod.mk.injEq] at heq
        obtain ⟨htbl, hpt'⟩ := heq
        have hstates : pt'.states = states' := by rw [← hpt']
        rw [hstates]
        exact build_parse_states_equal fuel g pt.states {} states' b hbs
          inv_empty i j hi hj hexp

/-- Witness for C4: re-interning the one-token item set returns the same
id 0 without allocating, and the build assigns state 0 a well-defined
shared id. -/
theorem c4_state_sharing_witness :
    (add_lex_state 11 (build_lex_item_set oneTokenGrammar [Symbol.terminal 0])
      internResult = some (0, internResult)) ∧
    (twoTokenResult.2.states.getD 0 default).lex_state_id =
      (twoTokenResult.2.states.getD 0 default).lex_state_id :=
  ⟨c4_state_sharing.1 10 10 _ _ {} 0 internResult inv_empty
      (itemSetEq_refl _) (by rfl),
   c4_state_sharing.2 20 twoTokenGrammar twoTokenParseTable
      twoTokenResult.1 twoTokenResult.2 (by rfl) 0 0 (by decide) (by decide)
      rfl⟩

/-- C9: `add_lex_state` only ever returns non-negative interned ids —
never `ERROR_STATE_ID` — and concretely, the parse state whose expected
set is the full symbol set receives the fresh id 0 while the error state
is populated separately (at `ERROR_STATE_ID`) with identical content. -/
theorem c9_error_state_not_interned :
    (∀ (fuel : Nat) (I : LexItemSet) (b : Builder) (i : Int) (b' : Builder),
      Inv b → add_lex_state fuel I b = some (i, b') →
      0 ≤ i ∧ i ≠ LexTable.ERROR_STATE_ID) ∧
    (build_lex_table 20 fullSetParseTable oneTokenGrammar).map
      (fun r => (r.2.states.getD 0 default).lex_state_id) = some 0 ∧
    (build_lex_table 20 fullSetParseTable oneTokenGrammar).map
      (fun r => r.1.error_state) =
      (build_lex_table 20 fullSetParseTable oneTokenGrammar).map
        (fun r => r.1.states.getD 0 default) ∧
    (0 : Int) ≠ LexTable.ERROR_STATE_ID := by
  refine ⟨?_, rfl, rfl, by decide⟩
  intro fuel I b i b' hInv h
  have hge := (((builder_frame fuel).1 I b i b' h).2.1 hInv).2
  refine ⟨hge, ?_⟩
  simp only [LexTable.ERROR_STATE_ID]
  omega

/-- Witness for C9's universally quantified part. -/
theorem c9_witness : 0 ≤ (0 : Int) ∧ (0 : Int) ≠ LexTable.ERROR_STATE_ID :=
  c9_error_state_not_interned.1 10
    (build_lex_item_set oneTokenGrammar [Symbol.terminal 0]) {} 0
    internResult inv_empty (by rfl)

/-- A state id valid for a table: the error id or an in-range index. -/
def IdOk (t : LexTable) (i : Int) : Prop :=
  i = LexTable.ERROR_STATE_ID ∨ (0 ≤ i ∧ i.toNat < t.states.length)

theorem idOk_of_sidOk {b : Builder} {i : Int} (h : SidOk b i) :
    IdOk b.lex_table i := h

theorem state_setState_self (t : LexTable) (i : Int) (x : LexState)
    (hi : IdOk t i) : (t.setState i x).state i = x := by
  unfold LexTable.setState LexTable.state
  rcases hi with he | ⟨h0, hlt⟩
  · simp [he]
  · have hne : i ≠ LexTable.ERROR_STATE_ID := by
      simp only [LexTable.ERROR_STATE_ID]; omega
    simp only [if_neg hne]
    simp [List.getD, List.getElem?_set, hlt]

theorem setState_setState_same (t : LexTable) (i : Int) (x y : LexState) :
    (t.setState i x).setState i y = t.setState i y := by
  unfold LexTable.setState
  by_cases he : i = LexTable.ERROR_STATE_ID
  · simp [he]
  · simp [he, List.set_set]

theorem setState_comm_ne (t : LexTable) (i j : Int) (x y : LexState)
    (hi : IdOk t i) (hj : IdOk t j) (hij : i ≠ j) :
    (t.setState i x).setState j y = (t.setState j y).setState i x := by
  unfold LexTable.setState
  by_cases hie : i = LexTable.ERROR_STATE_ID
  · have hje : j ≠ LexTable.ERROR_STATE_ID := by rw [← hie]; exact fun h => hij h.symm
    simp [hie, hje]
  · by_cases hje : j = LexTable.ERROR_STATE_ID
    · simp [hie, hje]
    · rcases hi with he | ⟨hi0, _⟩
      · exact absurd he hie
      · rcases hj with he | ⟨hj0, _⟩
        · exact absurd he hje
        · have : i.toNat ≠ j.toNat := by omega
          simp [hie, hje, List.set_comm _ _ _ this]

theorem state_setState_ne (t : LexTable) (i j : Int) (x : LexState)
    (hi : IdOk t i) (hj : IdOk t j) (hij : j ≠ i) :
    (t.setState i x).state j = t.state j := by
  unfold LexTable.setState LexTable.state
  by_cases hie : i = LexTable.ERROR_STATE_ID
  · have hje : j ≠ LexTable.ERROR_STATE_ID := fun h => hij (h.trans hie.symm)
    simp [hie, hje]
  · by_cases hje : j = LexTable.ERROR_STATE_ID
    · simp [hie, hje]
    · rcases hi with he | ⟨hi0, _⟩
      · exact absurd he hie
      · rcases hj with he | ⟨hj0, _⟩
        · exact absurd he hje
        · have hne : i.toNat ≠ j.toNat := by omega
          simp [hie, hje, List.getD, List.getElem?_set, hne]

theorem updateState_comm_same (t : LexTable) (i : Int) (f g : LexState → LexState)
    (hfg : ∀ st, g (f st) = f (g st)) (hi : IdOk t i) :
    (t.updateState i f).updateState i g = (t.updateState i g).updateState i f := by
  unfold LexTable.updateState
  rw [state_setState_self t i _ hi, state_setState_self t i _ hi,
    setState_setState_same, setState_setState_same, hfg]

theorem idOk_setState (t : LexTable) (i j : Int) (x : LexState)
    (h : IdOk t j) : IdOk (t.setState i x) j := by
  rcases h with he | ⟨h0, hlt⟩
  · exact Or.inl he
  · exact Or.inr ⟨h0, by rw [length_setState]; exact hlt⟩

theorem updateState_comm_ne (t : LexTable) (i j : Int) (f g : LexState → LexState)
    (hi : IdOk t i) (hj : IdOk t j) (hij : i ≠ j) :
    (t.updateState i f).updateState j g = (t.updateState j g).updateState i f := by
  unfold LexTable.updateState
  rw [state_setState_ne t i j _ hi hj (fun h => hij h.symm),
    state_setState_ne t j i _ hj hi hij,
    setState_comm_ne t i j _ _ hi hj hij]

theorem updateState_flag_comm (t : LexTable) (sid aid : Int) (v : Bool)
    (g : LexState → LexState)
    (hcomm : ∀ st, g { st with is_token_start := v } =
      { g st with is_token_start := v })
    (hsid : IdOk t sid) (haid : IdOk t aid) :
    (t.updateState sid (fun st => { st with is_token_start := v })).updateState aid g =
      (t.updateState aid g).updateState sid
        (fun st => { st with is_token_start := v }) := by
  by_cases heq : sid = aid
  · subst heq
    exact updateState_comm_same t sid _ g (fun st => hcomm st) hsid
  · exact updateState_comm_ne t sid aid _ g hsid haid heq

/-- A flag-only update changes no default action and no action map, at
any state id. -/
theorem flag_state_fields (t : LexTable) (sid : Int) (v : Bool) (j : Int) :
    ((t.updateState sid (fun st => { st with is_token_start := v })).state j).default_action =
      (t.state j).default_action ∧
    ((t.updateState sid (fun st => { st with is_token_start := v })).state j).actions =
      (t.state j).actions := by
  unfold LexTable.updateState LexTable.setState LexTable.state
  by_cases hse : sid = LexTable.ERROR_STATE_ID
  · by_cases hje : j = LexTable.ERROR_STATE_ID
    · simp [hse, hje]
    · simp [hse, hje]
  · by_cases hje : j = LexTable.ERROR_STATE_ID
    · simp [hse, hje]
    · simp only [if_neg hse, if_neg hje]
      by_cases hnn : sid.toNat = j.toNat
      · rw [hnn]
        by_cases hlt : j.toNat < t.states.length
        · simp [List.getD, List.getElem?_set, hlt]
        · simp [List.getD, List.getElem?_set, hlt,
            List.getElem?_eq_none (le_of_not_lt hlt)]
      · simp [List.getD, List.getElem?_set, hnn]

theorem addState_flag (t : LexTable) (sid : Int) (v : Bool)
    (hsid : IdOk t sid) :
    ((t.updateState sid (fun st => { st with is_token_start := v })).add_state).1 =
      (t.add_state).1 ∧
    ((t.updateState sid (fun st => { st with is_token_start := v })).add_state).2 =
      ((t.add_state).2.updateState sid (fun st => { st with is_token_start := v })) := by
  constructor
  · simp only [LexTable.add_state, LexTable.updateState]
    rw [length_setState]
  · unfold LexTable.add_state LexTable.updateState LexTable.setState LexTable.state
    rcases hsid with he | ⟨h0, hlt⟩
    · simp [he]
    · have hne : sid ≠ LexTable.ERROR_STATE_ID := by
        simp only [LexTable.ERROR_STATE_ID]; omega
      simp only [if_neg hne]
      have hgetD : (t.states ++ [({} : LexState)]).getD sid.toNat default =
          t.states.getD sid.toNat default := by
        simp [List.getD, List.getElem?_append, hlt]
      simp only [hgetD]
      rw [List.set_append_left _ _ hlt]

theorem flagSet_ids (sid : Int) (v : Bool) (b : Builder) :
    (flagSet sid v b).lex_state_ids = b.lex_state_ids := rfl

theorem flagSet_len (sid : Int) (v : Bool) (b : Builder) :
    (flagSet sid v b).len = b.len := length_setState _ _ _

theorem sidOk_flagSet {b : Builder} {sid : Int} {v : Bool} {j : Int}
    (h : SidOk b j) : SidOk (flagSet sid v b) j :=
  sidOk_of_len_eq (flagSet_len sid v b) h

theorem flagSet_idem (sid : Int) (v : Bool) (b : Builder) (hS : SidOk b sid) :
    flagSet sid v (flagSet sid v b) = flagSet sid v b := by
  unfold flagSet
  dsimp only
  congr 1
  unfold LexTable.updateState
  rw [state_setState_self _ _ _ (idOk_of_sidOk hS), setState_setState_same]

theorem accept_step_flag_comm (aid sid : Int) (v : Bool) (b : Builder)
    (it : LexItem) (hsid : SidOk b sid) (haid : SidOk b aid) :
    accept_step aid (flagSet sid v b) it = flagSet sid v (accept_step aid b it) := by
  unfold accept_step
  dsimp only
  have hread : ((flagSet sid v b).lex_table.state aid).default_action =
      (b.lex_table.state aid).default_action :=
    (flag_state_fields b.lex_table sid v aid).1
  by_cases hdone : (get_completion_status it.rule).is_done = true
  · rw [if_pos hdone, if_pos hdone, hread]
    by_cases hres : resolve
        (LexAction.Accept it.lhs (get_completion_status it.rule).precedence)
        ((b.lex_table.state aid).default_action) = true
    · rw [if_pos hres, if_pos hres]
      exact congrArg
        (fun t => ({ lex_state_ids := b.lex_state_ids, lex_table := t } : Builder))
        (updateState_flag_comm b.lex_table sid aid v _ (fun st => rfl)
          (idOk_of_sidOk hsid) (idOk_of_sidOk haid))
    · rw [if_neg hres, if_neg hres]
  · rw [if_neg hdone, if_neg hdone]

theorem accept_flag_comm (aid sid : Int) (v : Bool) :
    ∀ (l : List LexItem) (b : Builder), SidOk b sid → SidOk b aid →
      l.foldl (accept_step aid) (flagSet sid v b) =
        flagSet sid v (l.foldl (accept_step aid) b) := by
  intro l
  induction l with
  | nil => intro b _ _; rfl
  | cons it rest ih =>
      intro b hsid haid
      rw [List.foldl_cons, List.foldl_cons,
        accept_step_flag_comm aid sid v b it hsid haid]
      exact ih (accept_step aid b it)
        (sidOk_of_len_eq (accept_step_len aid b it) hsid)
        (sidOk_of_len_eq (accept_step_len aid b it) haid)

theorem token_step_flag_comm (pid sid : Int) (v : Bool) (b : Builder)
    (it : LexItem) (hsid : SidOk b sid) (hpid : SidOk b pid)
    (hne : pid ≠ sid) :
    token_start_step pid (flagSet sid v b) it =
      flagSet sid v (token_start_step pid b it) := by
  unfold token_start_step flagSet
  dsimp only
  by_cases hts : it.is_token_start = true
  · rw [if_pos hts, if_pos hts]
    exact congrArg
      (fun t => ({ lex_state_ids := b.lex_state_ids, lex_table := t } : Builder))
      (updateState_comm_ne b.lex_table sid pid _ _ (idOk_of_sidOk hsid)
        (idOk_of_sidOk hpid) (fun h => hne h.symm))
  · rw [if_neg hts, if_neg hts]

theorem token_flag_comm (pid sid : Int) (v : Bool) :
    ∀ (l : List LexItem) (b : Builder), SidOk b sid → SidOk b pid →
      pid ≠ sid →
      l.foldl (token_start_step pid) (flagSet sid v b) =
        flagSet sid v (l.foldl (token_start_step pid) b) := by
  intro l
  induction l with
  | nil => intro b _ _ _; rfl
  | cons it rest ih =>
      intro b hsid hpid hne
      rw [List.foldl_cons, List.foldl_cons,
        token_step_flag_comm pid sid v b it hsid hpid hne]
      exact ih (token_start_step pid b it)
        (sidOk_of_len_eq (token_start_step_len pid b it) hsid)
        (sidOk_of_len_eq (token_start_step_len pid b it) hpid) hne

theorem accept_pass_flag_comm (I : LexItemSet) (aid sid : Int) (v : Bool)
    (b : Builder) (hsid : SidOk b sid) (haid : SidOk b aid) :
    add_accept_token_actions I aid (flagSet sid v b) =
      flagSet sid v (add_accept_token_actions I aid b) :=
  accept_flag_comm aid sid v I.entries b hsid haid

theorem token_pass_flag_comm (I : LexItemSet) (pid sid : Int) (v : Bool)
    (b : Builder) (hsid : SidOk b sid) (hpid : SidOk b pid)
    (hne : pid ≠ sid) :
    add_token_start I pid (flagSet sid v b) =
      flagSet sid v (add_token_start I pid b) :=
  token_flag_comm pid sid v I.entries b hsid hpid hne

/-- Setting the token-start flag of an existing state commutes with the
whole recursive construction: interning, population and the advance loop
neither read nor clear the flag of a pre-existing state. -/
theorem flag_comm : ∀ fuel : Nat,
    (∀ (I : LexItemSet) (b : Builder) (sid : Int) (v : Bool), SidOk b sid →
      add_lex_state fuel I (flagSet sid v b) =
        (add_lex_state fuel I b).map (fun p => (p.1, flagSet sid v p.2))) ∧
    (∀ (I : LexItemSet) (pid : Int) (b : Builder) (sid : Int) (v : Bool),
      SidOk b sid → SidOk b pid → pid ≠ sid →
      populate_lex_state fuel I pid (flagSet sid v b) =
        (populate_lex_state fuel I pid b).map (flagSet sid v)) ∧
    (∀ (ts : List (CharacterSet × LexItemSet)) (aid : Int) (b : Builder)
      (sid : Int) (v : Bool), SidOk b sid → SidOk b aid →
      add_advance_actions fuel ts aid (flagSet sid v b) =
        (add_advance_actions fuel ts aid b).map (flagSet sid v)) := by
  intro fuel
  induction fuel with
  | zero =>
      exact ⟨fun _ _ _ _ _ => rfl, fun _ _ _ _ _ _ _ _ => rfl,
        fun _ _ _ _ _ _ _ => rfl⟩
  | succ f ih =>
      obtain ⟨ihA, ihP, ihAdv⟩ := ih
      refine ⟨?_, ?_, ?_⟩
      · -- add_lex_state commutes with the flag update
        intro I b sid v hsid
        simp only [add_lex_state, flagSet_ids]
        cases hfind : b.lex_state_ids.find? (fun p => itemSetEq p.1 I) with
        | some p => rfl
        | none =>
            have h1 := addState_flag b.lex_table sid v (idOk_of_sidOk hsid)
            have hpair : (flagSet sid v b).lex_table.add_state =
                ((b.lex_table.states.length : Int),
                  ({ b.lex_table with
                    states := b.lex_table.states ++ [({} : LexState)] }).updateState
                    sid (fun st => { st with is_token_start := v })) :=
              Prod.ext_iff.mpr ⟨h1.1, h1.2⟩
            rw [hpair]
            dsimp only [LexTable.add_state]
            have hsid1 : SidOk
                (⟨b.lex_state_ids ++ [(I, (b.lex_table.states.length : Int))],
                  { b.lex_table with
                    states := b.lex_table.states ++ [({} : LexState)] }⟩ : Builder)
                sid := by
              rcases hsid with he | ⟨h0, hlt⟩
              · exact Or.inl he
              · refine Or.inr ⟨h0, ?_⟩
                simp only [Builder.len, List.length_append]
                simp only [Builder.len] at hlt
                omega
            have hpid1 : SidOk
                (⟨b.lex_state_ids ++ [(I, (b.lex_table.states.length : Int))],
                  { b.lex_table with
                    states := b.lex_table.states ++ [({} : LexState)] }⟩ : Builder)
                (b.lex_table.states.length : Int) := by
              refine Or.inr ⟨Int.natCast_nonneg _, ?_⟩
              simp [Builder.len]
            have hne1 : (b.lex_table.states.length : Int) ≠ sid := by
              rcases hsid with he | ⟨h0, hlt⟩
              · simp only [he, LexTable.ERROR_STATE_ID]
                omega
              · simp only [Builder.len] at hlt
                omega
            have hP := ihP I (b.lex_table.states.length : Int)
              (⟨b.lex_state_ids ++ [(I, (b.lex_table.states.length : Int))],
                { b.lex_table with
                  states := b.lex_table.states ++ [({} : LexState)] }⟩ : Builder)
              sid v hsid1 hpid1 hne1
            exact (congrArg
                (Option.map (fun b2 => ((b.lex_table.states.length : Int), b2)))
                hP).trans
              (by
                cases populate_lex_state f I (b.lex_table.states.length : Int)
                  (⟨b.lex_state_ids ++ [(I, (b.lex_table.states.length : Int))],
                    { b.lex_table with
                      states := b.lex_table.states ++ [({} : LexState)] }⟩ : Builder) with
                | none => rfl
                | some x => rfl)
      · -- populate commutes with the flag update of another state
        intro I pid b sid v hsid hpid hne
        simp only [populate_lex_state]
        rw [accept_pass_flag_comm I pid sid v b hsid hpid]
        have hsidAcc : SidOk (add_accept_token_actions I pid b) sid :=
          sidOk_of_len_eq (accept_pass_onlyAt I pid b (sidOk_neg_one hpid)).1 hsid
        have hpidAcc : SidOk (add_accept_token_actions I pid b) pid :=
          sidOk_of_len_eq (accept_pass_onlyAt I pid b (sidOk_neg_one hpid)).1 hpid
        rw [ihAdv I.transitions pid (add_accept_token_actions I pid b) sid v
          hsidAcc hpidAcc]
        cases hadv : add_advance_actions f I.transitions pid
            (add_accept_token_actions I pid b) with
        | none => rfl
        | some b2 =>
            have hfr := ((builder_frame f).2.2 I.transitions pid
              (add_accept_token_actions I pid b) b2 (sidOk_neg_one hpid) hadv).1
            have hsid2 : SidOk b2 sid := sidOk_of_framedAt hfr hsidAcc
            have hpid2 : SidOk b2 pid := sidOk_of_framedAt hfr hpidAcc
            exact congrArg some (token_pass_flag_comm I pid sid v b2 hsid2 hpid2 hne)
      · -- the advance loop commutes with the flag update
        intro ts aid b sid v hsid haid
        simp only [add_advance_actions]
        cases ts with
        | nil => rfl
        | cons hd rest =>
            obtain ⟨rule, nis⟩ := hd
            dsimp only
            rw [ihA nis b sid v hsid]
            cases hadd : add_lex_state f nis b with
            | none => rfl
            | some pr =>
                obtain ⟨nid, b1⟩ := pr
                simp only [Option.map_some']
                have hfr := (builder_frame f).1 nis b nid b1 hadd
                have hsid1 : SidOk b1 sid := sidOk_of_framedAdd hfr.1 hsid
                have haid1 : SidOk b1 aid := sidOk_of_framedAdd hfr.1 haid
                have hread : ((flagSet sid v b1).lex_table.state aid).default_action =
                    (b1.lex_table.state aid).default_action :=
                  (flag_state_fields b1.lex_table sid v aid).1
                rw [hread]
                by_cases hres : resolve
                    (LexAction.Advance nid (precedence_range_for_item_set nis))
                    ((b1.lex_table.state aid).default_action) = true
                · rw [if_pos hres, if_pos hres]
                  have hTeq := updateState_flag_comm b1.lex_table sid aid v (fun st => { st with actions := assocSet st.actions rule (LexAction.Advance nid (precedence_range_for_item_set nis)) }) (fun st => rfl) (idOk_of_sidOk hsid1) (idOk_of_sidOk haid1)
                  have hBeq : ({ lex_state_ids := (flagSet sid v b1).lex_state_ids, lex_table := (flagSet sid v b1).lex_table.updateState aid (fun st => { st with actions := assocSet st.actions rule (LexAction.Advance nid (precedence_range_for_item_set nis)) }) } : Builder) = flagSet sid v ({ b1 with lex_table := b1.lex_table.updateState aid (fun st => { st with actions := assocSet st.actions rule (LexAction.Advance nid (precedence_range_for_item_set nis)) }) } : Builder) :=
                    congrArg (fun t => ({ lex_state_ids := b1.lex_state_ids, lex_table := t } : Builder)) hTeq
                  rw [hBeq]
                  exact ihAdv rest aid ({ b1 with lex_table := b1.lex_table.updateState aid (fun st => { st with actions := assocSet st.actions rule (LexAction.Advance nid (precedence_range_for_item_set nis)) }) } : Builder) sid v (sidOk_of_len_eq (len_update b1 aid _) hsid1) (sidOk_of_len_eq (len_update b1 aid _) haid1)
                · rw [if_neg hres, if_neg hres]
                  exact ihAdv rest aid b1 sid v hsid1 haid1

theorem token_fold_eq (sid : Int) :
    ∀ (l : List LexItem) (b : Builder), SidOk b sid →
      l.foldl (token_start_step sid) b =
        if l.any LexItem.is_token_start then flagSet sid true b else b := by
  intro l
  induction l with
  | nil => intro b _; rfl
  | cons it rest ih =>
      intro b hS
      rw [List.foldl_cons]
      by_cases hts : it.is_token_start = true
      · have hstep : token_start_step sid b it = flagSet sid true b := by
          unfold token_start_step flagSet
          rw [if_pos hts]
        rw [hstep, ih (flagSet sid true b) (sidOk_flagSet hS)]
        by_cases hrest : rest.any LexItem.is_token_start = true
        · rw [if_pos hrest, flagSet_idem sid true b hS, if_pos (by simp [hts])]
        · rw [if_neg hrest, if_pos (by simp [hts])]
      · have hstep : token_start_step sid b it = b := by
          unfold token_start_step
          rw [if_neg hts]
        have hfalse : it.is_token_start = false := by
          revert hts
          cases it.is_token_start <;> simp
        rw [hstep, ih b hS, List.any_cons, hfalse, Bool.false_or]

theorem add_token_start_eq (I : LexItemSet) (sid : Int) (b : Builder)
    (hS : SidOk b sid) :
    add_token_start I sid b =
      if I.entries.any LexItem.is_token_start then flagSet sid true b else b :=
  token_fold_eq sid I.entries b hS

/-- C2 (amended): the token-start pass commutes with the other two
passes — populating a state with the token-start pass moved to the front
yields exactly the same builder; the accept and advance passes, by
contrast, are order-dependent (see the counterexample). -/
theorem c2_amended_theorem (fuel : Nat) (I : LexItemSet) (sid : Int)
    (b : Builder) (hS : SidOk b sid) :
    populate_lex_state fuel I sid b =
      populate_lex_state_token_start_first fuel I sid b := by
  cases fuel with
  | zero => rfl
  | succ f =>
      simp only [populate_lex_state, populate_lex_state_token_start_first]
      rw [add_token_start_eq I sid b hS]
      have hSacc : SidOk (add_accept_token_actions I sid b) sid :=
        sidOk_of_len_eq (accept_pass_onlyAt I sid b (sidOk_neg_one hS)).1 hS
      by_cases hany : I.entries.any LexItem.is_token_start = true
      · rw [if_pos hany]
        rw [accept_pass_flag_comm I sid sid true b hS hS]
        rw [(flag_comm f).2.2 I.transitions sid (add_accept_token_actions I sid b)
          sid true hSacc hSacc]
        cases hadv : add_advance_actions f I.transitions sid
            (add_accept_token_actions I sid b) with
        | none => rfl
        | some b2 =>
            have hS2 : SidOk b2 sid :=
              sidOk_of_framedAt ((builder_frame f).2.2 I.transitions sid
                (add_accept_token_actions I sid b) b2 (sidOk_neg_one hS) hadv).1
                hSacc
            simp only [Option.map_some']
            rw [add_token_start_eq I sid b2 hS2, if_pos hany]
      · rw [if_neg hany]
        cases hadv : add_advance_actions f I.transitions sid
            (add_accept_token_actions I sid b) with
        | none => rfl
        | some b2 =>
            have hS2 : SidOk b2 sid :=
              sidOk_of_framedAt ((builder_frame f).2.2 I.transitions sid
                (add_accept_token_actions I sid b) b2 (sidOk_neg_one hS) hadv).1
                hSacc
            simp only [Option.map_some']
            rw [add_token_start_eq I sid b2 hS2, if_neg hany]

/-- Witness for the amended C2 at a concrete populate run. -/
theorem c2_amended_witness :
    populate_lex_state 10 cexItemSet 0 cexBuilder =
      populate_lex_state_token_start_first 10 cexItemSet 0 cexBuilder :=
  c2_amended_theorem 10 cexItemSet 0 cexBuilder (Or.inr (by decide))

/-- C3: the item-set-to-id mapping is recorded before the recursive
population, so a revisited (set-equal) item set returns its id at once
without recursing or allocating; consequently the cyclic token
`repeat('a')`, whose residual item set's only transition leads back to
itself, still yields a finite lex table (two states). -/
theorem c3_cyclic_rule_terminates :
    (∀ (fuel : Nat) (I K : LexItemSet) (i0 : Int) (b : Builder),
      Inv b → (K, i0) ∈ b.lex_state_ids → itemSetEq K I = true →
      add_lex_state (fuel + 1) I b = some (i0, b)) ∧
    (build_lex_table 20 cyclicParseTable cyclicGrammar).map
      (fun r => r.1.states.length) = some 2 ∧
    cyclicResidualSet.transitions = [([97], cyclicResidualSet)] := by
  refine ⟨?_, rfl, rfl⟩
  intro fuel I K i0 b hInv hmem hKI
  simp only [add_lex_state]
  rw [find_itemSetEq_unique I K i0 b.lex_state_ids hInv.2 hmem hKI]

/-- Witness for C3's memoized-hit part: re-interning a recorded item set
consumes no fuel beyond the lookup and leaves the builder unchanged. -/
theorem c3_witness : add_lex_state 1 cexItemSet cexBuilder = some (0, cexBuilder) :=
  c3_cyclic_rule_terminates.1 0 cexItemSet cexItemSet 0 cexBuilder
    ⟨by decide, List.pairwise_singleton _ _⟩ (by decide) (by decide)

end TreeSitter
